import Mathlib

/-!
Verification of the kanban-backend persistence/service layer.

Shallow embedding of:
  * `src/database/kanban-database.ts` (class `KanbanDatabase`, SQLite-backed
    repository; the SQLite schema with its `ON DELETE CASCADE` foreign keys,
    primary keys and `DEFAULT` clauses is part of the modelled code), and
  * `src/services/kanban.service.ts` (class `KanbanService`).

Modelling conventions:
  * The SQLite file is a `DbState`: one list of rows per table, in insertion
    order.  TEXT columns are `String`, INTEGER columns are `Int`.
  * `ORDER BY` is modelled by an insertion sort with the corresponding
    comparison; SQLite's BINARY collation on TEXT is byte-wise comparison of
    the UTF-8 encoding, modelled as lexicographic comparison of code points.
  * `GROUP_CONCAT(tag_name)` is `none` when a task has no tag rows, otherwise
    the comma-join of the tag names in table order.
  * JavaScript's `String.prototype.split(',')` is modelled character-exactly
    (`jsSplitComma`), and the truthiness test `dbTask.tags ? … : …` treats
    both SQL `NULL` and the empty string as falsy (`jsSplitTags`).
  * SQLite's default `LIKE` is case-insensitive on the ASCII range and treats
    `%`/`_` as wildcards; `likeChars` implements exactly that semantics.
  * `datetime('now')` defaults and `generateId()` are nondeterministic inputs
    and are passed as explicit arguments.
  * Statement-level constraint enforcement (PRIMARY KEY, FOREIGN KEY with
    `ON DELETE CASCADE`) comes from the schema in `initTables`; it is modelled
    in `applyOp`, where a statement that would raise aborts and leaves the
    state unchanged (the single-statement granularity SQLite guarantees).
-/

namespace Kanban

/-- A row of the `projects` table. -/
structure ProjectRow where
  id : String
  name : String
  description : String
  created_at : String
deriving Repr, DecidableEq

/-- A row of the `columns` table. -/
structure ColumnRow where
  id : String
  project_id : String
  title : String
  color : String
  order_index : Int
deriving Repr, DecidableEq

/-- A row of the `tasks` table.  `created_at` has SQL default
`datetime('now')`; `order_index` is filled in by the repository. -/
structure TaskRow where
  id : String
  column_id : String
  title : String
  description : String
  assignee : String
  due_date : String
  priority : String
  created_at : String
  order_index : Int
deriving Repr, DecidableEq

/-- A row of the `task_tags` table; the primary key is the pair. -/
structure TagRow where
  task_id : String
  tag_name : String
deriving Repr, DecidableEq

/-- The whole SQLite database, one list of rows per table, in table order. -/
structure DbState where
  projects : List ProjectRow
  columns : List ColumnRow
  tasks : List TaskRow
  taskTags : List TagRow
deriving Repr, DecidableEq

/-! ### String primitives (SQLite BINARY collation, JS split, SQLite LIKE) -/

/-- Lexicographic (byte-wise) comparison of code-point lists: SQLite's
default BINARY collation on TEXT values. -/
def strLeChars : List Char → List Char → Bool
  | [], _ => true
  | _ :: _, [] => false
  | a :: as, b :: bs =>
    if a.toNat < b.toNat then true
    else if b.toNat < a.toNat then false
    else strLeChars as bs

/-- `a ≤ b` under SQLite's BINARY collation. -/
def strLe (a b : String) : Bool := strLeChars a.data b.data

/-- JavaScript `s.split(',')` on the character list: splits at every comma,
keeping empty pieces (`"".split(',') = [""]`). -/
def splitCommaChars : List Char → List (List Char)
  | [] => [[]]
  | c :: cs =>
    if c = ',' then [] :: splitCommaChars cs
    else
      match splitCommaChars cs with
      | [] => [[c]]
      | h :: t => (c :: h) :: t

/-- Comma-join of character lists: SQLite `GROUP_CONCAT` with the default
`,` separator. -/
def joinCommaChars : List (List Char) → List Char
  | [] => []
  | [p] => p
  | p :: ps => p ++ ',' :: joinCommaChars ps

/-- `GROUP_CONCAT` of a nonempty group, as a `String`. -/
def commaJoin (parts : List String) : String :=
  String.mk (joinCommaChars (parts.map String.data))

/-- JavaScript `s.split(',')`. -/
def jsSplitComma (s : String) : List String :=
  (splitCommaChars s.data).map String.mk

/-- The service's `dbTask.tags ? dbTask.tags.split(',') : []`: SQL `NULL`
(no tag rows) and the empty string are both falsy in JavaScript. -/
def jsSplitTags : Option String → List String
  | none => []
  | some s => if s = "" then [] else jsSplitComma s

/-- ASCII case folding, as done by SQLite's default `LIKE`. -/
def asciiLowerChar (c : Char) : Char :=
  if 'A' ≤ c ∧ c ≤ 'Z' then Char.ofNat (c.toNat + 32) else c

/-- `%` wildcard step: the rest of the pattern may match any suffix of the
text. -/
def likeStar (f : List Char → Bool) : List Char → Bool
  | [] => f []
  | t :: ts => f (t :: ts) || likeStar f ts

/-- SQLite's default `LIKE pattern` matcher on code-point lists: `%` matches
any sequence, `_` matches any single character, other characters compare
after ASCII case folding.  The pattern must match the whole text. -/
def likeChars : List Char → List Char → Bool
  | [], ts => ts.isEmpty
  | p :: ps, ts =>
    if p = '%' then likeStar (likeChars ps) ts
    else if p = '_' then
      match ts with
      | [] => false
      | _ :: ts2 => likeChars ps ts2
    else
      match ts with
      | [] => false
      | t :: ts2 => (asciiLowerChar p == asciiLowerChar t) && likeChars ps ts2

/-- `value LIKE '%' || term || '%'`, the pattern `searchTasks` builds. -/
def likeContains (term s : String) : Bool :=
  likeChars ('%' :: (term.data ++ ['%'])) s.data

/-- `needle` is a prefix of `hay` (plain character equality). -/
def prefixMatch : List Char → List Char → Bool
  | [], _ => true
  | _ :: _, [] => false
  | a :: as, b :: bs => (a == b) && prefixMatch as bs

/-- `needle` occurs as a contiguous run inside `hay`. -/
def subMatch (n : List Char) : List Char → Bool
  | [] => n.isEmpty
  | c :: cs => prefixMatch n (c :: cs) || subMatch n cs

/-- Case-insensitive (ASCII) substring test: what SQLite's
`value LIKE '%term%'` computes for a wildcard-free `term`. -/
def ciContains (term s : String) : Bool :=
  subMatch (term.data.map asciiLowerChar) (s.data.map asciiLowerChar)

/-- Modelled from the spec: `searchTasks` matches "case-sensitive/substring"
— a plain case-sensitive substring test, the behaviour the specification
ascribes to the search.  Kept separate from the code model `likeContains`
to compare the two. -/
def csContains (term s : String) : Bool :=
  subMatch term.data s.data

/-! ### Sorting (model of `ORDER BY`) -/

/-- Insert into a sorted list, keeping earlier elements first on ties. -/
def insertSorted (le : α → α → Bool) (a : α) : List α → List α
  | [] => [a]
  | b :: bs => if le a b then a :: b :: bs else b :: insertSorted le a bs

/-- Insertion sort; the model of SQL `ORDER BY` with comparison `le`. -/
def sortBy (le : α → α → Bool) : List α → List α
  | [] => []
  | a :: as => insertSorted le a (sortBy le as)

/-- `ORDER BY order_index, created_at` on task rows. -/
def taskLE (a b : TaskRow) : Bool :=
  decide (a.order_index < b.order_index) ||
    (decide (a.order_index = b.order_index) && strLe a.created_at b.created_at)

/-- `ORDER BY order_index` on column rows. -/
def colLE (a b : ColumnRow) : Bool :=
  decide (a.order_index ≤ b.order_index)

/-- `ORDER BY created_at DESC` on task rows. -/
def recentLE (a b : TaskRow) : Bool :=
  strLe b.created_at a.created_at

/-! ### Repository: `KanbanDatabase` -/

/-- Tag names of a task, in `task_tags` table order. -/
def tagNamesOf (st : DbState) (taskId : String) : List String :=
  (st.taskTags.filter fun g => g.task_id == taskId).map (·.tag_name)

/-- `GROUP_CONCAT(tt.tag_name)` under a `LEFT JOIN`: SQL `NULL` when the
task has no tag rows. -/
def concatTags : List String → Option String
  | [] => none
  | n :: ns => some (commaJoin (n :: ns))

/-- A task row as returned by the tag-annotated queries (`DbTask` including
its `tags : string | null` column). -/
structure TaskRead where
  row : TaskRow
  tags : Option String
deriving Repr, DecidableEq

/-- Annotate a task row with its `GROUP_CONCAT` tag string. -/
def annotateTask (st : DbState) (r : TaskRow) : TaskRead :=
  ⟨r, concatTags (tagNamesOf st r.id)⟩

namespace KanbanDatabase

/-- `INSERT INTO projects …` (row effect of `createProject`). -/
def createProject (st : DbState) (p : ProjectRow) : DbState :=
  { st with projects := st.projects ++ [p] }

/-- `SELECT * FROM projects WHERE id = ?` (`getProject`). -/
def getProject (st : DbState) (projectId : String) : Option ProjectRow :=
  st.projects.find? fun p => p.id == projectId

/-- The optional fields of `updateProject`. -/
structure ProjectUpdates where
  name : Option String
  description : Option String
deriving Repr, DecidableEq

/-- `updateProject`: dynamic `SET` list from the present fields; with no
fields it returns `false` without touching the database.  The `Bool` is
`result.changes > 0`. -/
def updateProject (st : DbState) (projectId : String) (u : ProjectUpdates) :
    DbState × Bool :=
  if u.name.isNone ∧ u.description.isNone then (st, false)
  else
    ({ st with
        projects := st.projects.map fun p =>
          if p.id == projectId then
            { p with
                name := u.name.getD p.name,
                description := u.description.getD p.description }
          else p },
      st.projects.any fun p => p.id == projectId)

/-- `INSERT INTO columns …` (row effect of `createColumn`). -/
def createColumn (st : DbState) (c : ColumnRow) : DbState :=
  { st with columns := st.columns ++ [c] }

/-- `getColumnsByProject`: `WHERE project_id = ? ORDER BY order_index`. -/
def getColumnsByProject (st : DbState) (projectId : String) : List ColumnRow :=
  sortBy colLE (st.columns.filter fun c => c.project_id == projectId)

/-- The optional fields of `updateColumn`. -/
structure ColumnUpdates where
  title : Option String
  color : Option String
deriving Repr, DecidableEq

/-- `updateColumn`: dynamic `SET` list; no fields ⇒ `false`, no write. -/
def updateColumn (st : DbState) (columnId : String) (u : ColumnUpdates) :
    DbState × Bool :=
  if u.title.isNone ∧ u.color.isNone then (st, false)
  else
    ({ st with
        columns := st.columns.map fun c =>
          if c.id == columnId then
            { c with
                title := u.title.getD c.title,
                color := u.color.getD c.color }
          else c },
      st.columns.any fun c => c.id == columnId)

/-- `UPDATE columns SET order_index = ? WHERE id = ?` (`updateColumnOrder`). -/
def updateColumnOrder (st : DbState) (columnId : String) (ord : Int) : DbState :=
  { st with
      columns := st.columns.map fun c =>
        if c.id == columnId then { c with order_index := ord } else c }

/-- `updateColumnsOrder`: the batch loop (its transaction cannot fail here,
single `UPDATE` statements do not raise). -/
def updateColumnsOrder (st : DbState) (orders : List (String × Int)) : DbState :=
  orders.foldl (fun s p => updateColumnOrder s p.1 p.2) st

/-- SQL `MAX` of a list of INTEGER values: `NULL` on the empty list. -/
def optMax (l : List Int) : Option Int :=
  l.foldl (fun a x =>
    match a with
    | none => some x
    | some m => some (max m x)) none

/-- `SELECT COALESCE(MAX(order_index), -1) + 1 FROM tasks WHERE column_id = ?`:
the appended `order_index` computed inside `createTask`'s `INSERT`. -/
def nextOrderIndex (st : DbState) (columnId : String) : Int :=
  (optMax ((st.tasks.filter fun r => r.column_id == columnId).map
    (·.order_index))).getD (-1) + 1

/-- The caller-supplied columns of `createTask`'s `INSERT` (everything but
`created_at`, which defaults to `datetime('now')`, and `order_index`,
computed by the statement itself). -/
structure NewTask where
  id : String
  column_id : String
  title : String
  description : String
  assignee : String
  due_date : String
  priority : String
deriving Repr, DecidableEq

/-- The row `createTask`'s `INSERT` produces. -/
def newTaskRow (st : DbState) (t : NewTask) (now : String) : TaskRow :=
  { id := t.id, column_id := t.column_id, title := t.title,
    description := t.description, assignee := t.assignee,
    due_date := t.due_date, priority := t.priority,
    created_at := now,
    order_index := nextOrderIndex st t.column_id }

/-- `createTask`: appends the row; `order_index` is the column's current
maximum plus one (`0` on an empty column); `created_at` is the statement's
`datetime('now')`, passed explicitly as `now`. -/
def createTask (st : DbState) (t : NewTask) (now : String) : DbState :=
  { st with tasks := st.tasks ++ [newTaskRow st t now] }

/-- `getTasksByColumn`: tag-annotated rows of one column, ordered by
`(order_index, created_at)`. -/
def getTasksByColumn (st : DbState) (columnId : String) : List TaskRead :=
  (sortBy taskLE (st.tasks.filter fun r => r.column_id == columnId)).map
    (annotateTask st)

/-- The non-tag task fields the service ever places into the dynamic
`updates` record of the repository's `updateTask`. -/
structure TaskRowUpdates where
  title : Option String
  description : Option String
  assignee : Option String
  due_date : Option String
  priority : Option String
deriving Repr, DecidableEq

/-- No key present in the dynamic `updates` record. -/
def TaskRowUpdates.isEmptyRec (u : TaskRowUpdates) : Bool :=
  u.title.isNone && u.description.isNone && u.assignee.isNone &&
    u.due_date.isNone && u.priority.isNone

/-- Apply the present fields to a row (the built `SET` clause). -/
def applyTaskUpdates (u : TaskRowUpdates) (r : TaskRow) : TaskRow :=
  { r with
      title := u.title.getD r.title,
      description := u.description.getD r.description,
      assignee := u.assignee.getD r.assignee,
      due_date := u.due_date.getD r.due_date,
      priority := u.priority.getD r.priority }

/-- `updateTask` (repository): dynamic `SET` list from present keys; no
keys ⇒ `false`, no write.  The `Bool` is `result.changes > 0`. -/
def updateTask (st : DbState) (taskId : String) (u : TaskRowUpdates) :
    DbState × Bool :=
  if u.isEmptyRec then (st, false)
  else
    ({ st with
        tasks := st.tasks.map fun r =>
          if r.id == taskId then applyTaskUpdates u r else r },
      st.tasks.any fun r => r.id == taskId)

/-- `UPDATE tasks SET column_id = ? WHERE id = ?` (row effect of the
repository's `moveTask`). -/
def moveTask (st : DbState) (taskId newColumnId : String) : DbState :=
  { st with
      tasks := st.tasks.map fun r =>
        if r.id == taskId then { r with column_id := newColumnId } else r }

/-- `UPDATE tasks SET order_index = ? WHERE id = ?` (`updateTaskOrder`). -/
def updateTaskOrder (st : DbState) (taskId : String) (ord : Int) : DbState :=
  { st with
      tasks := st.tasks.map fun r =>
        if r.id == taskId then { r with order_index := ord } else r }

/-- `updateTasksOrder`: the batch loop of the task-order transaction. -/
def updateTasksOrder (st : DbState) (orders : List (String × Int)) : DbState :=
  orders.foldl (fun s p => updateTaskOrder s p.1 p.2) st

/-- `INSERT OR IGNORE INTO task_tags …` row loop: appends each pair not
already present (the `(task_id, tag_name)` primary key). -/
def insertTagRows (rows : List TagRow) (taskId : String) : List String → List TagRow
  | [] => rows
  | tg :: tgs =>
    if rows.any fun g => g.task_id == taskId && g.tag_name == tg then
      insertTagRows rows taskId tgs
    else
      insertTagRows (rows ++ [⟨taskId, tg⟩]) taskId tgs

/-- `addTaskTags`. -/
def addTaskTags (st : DbState) (taskId : String) (tags : List String) : DbState :=
  { st with taskTags := insertTagRows st.taskTags taskId tags }

/-- `DELETE FROM task_tags WHERE task_id = ?` (`deleteTaskTags`). -/
def deleteTaskTags (st : DbState) (taskId : String) : DbState :=
  { st with taskTags := st.taskTags.filter fun g => !(g.task_id == taskId) }

/-- `DELETE FROM tasks WHERE id = ?` with the schema's
`ON DELETE CASCADE` into `task_tags` (`deleteTask`). -/
def deleteTask (st : DbState) (taskId : String) : DbState :=
  { st with
      tasks := st.tasks.filter fun r => !(r.id == taskId),
      taskTags := st.taskTags.filter fun g => !(g.task_id == taskId) }

/-- `DELETE FROM columns WHERE id = ?` with the schema's cascades into
`tasks` and `task_tags` (`deleteColumn`). -/
def deleteColumn (st : DbState) (columnId : String) : DbState :=
  let removedTasks := (st.tasks.filter fun r => r.column_id == columnId).map (·.id)
  { st with
      columns := st.columns.filter fun c => !(c.id == columnId),
      tasks := st.tasks.filter fun r => !(r.column_id == columnId),
      taskTags := st.taskTags.filter fun g => !(decide (g.task_id ∈ removedTasks)) }

/-- `DELETE FROM projects WHERE id = ?` with the schema's cascades into
`columns`, `tasks` and `task_tags` (`deleteProject`). -/
def deleteProject (st : DbState) (projectId : String) : DbState :=
  let removedCols := (st.columns.filter fun c => c.project_id == projectId).map (·.id)
  let removedTasks :=
    (st.tasks.filter fun r => decide (r.column_id ∈ removedCols)).map (·.id)
  { st with
      projects := st.projects.filter fun p => !(p.id == projectId),
      columns := st.columns.filter fun c => !(c.project_id == projectId),
      tasks := st.tasks.filter fun r => !(decide (r.column_id ∈ removedCols)),
      taskTags := st.taskTags.filter fun g => !(decide (g.task_id ∈ removedTasks)) }

/-- `getTask`: one tag-annotated row by id (`stmt.get` takes the first). -/
def getTask (st : DbState) (taskId : String) : Option TaskRead :=
  (st.tasks.find? fun r => r.id == taskId).map (annotateTask st)

/-- `searchTasks`: tasks of the project's columns matching
`title LIKE '%term%' OR description LIKE '%term%' OR assignee LIKE '%term%'`,
ordered `created_at DESC`, tag-annotated. -/
def searchTasks (st : DbState) (projectId : String) (term : String) :
    List TaskRead :=
  (sortBy recentLE (st.tasks.filter fun r =>
      (st.columns.any fun c => c.id == r.column_id && c.project_id == projectId) &&
        (likeContains term r.title || likeContains term r.description ||
          likeContains term r.assignee))).map (annotateTask st)

end KanbanDatabase

/-! ### Service: `KanbanService` -/

namespace KanbanService

/-- JavaScript `arr.splice(i, 0, a)`: inserts at `i`, clamped to the list
length (an index beyond the end appends). -/
def spliceInsert (a : α) : List α → Nat → List α
  | l, 0 => a :: l
  | [], _ + 1 => [a]
  | x :: xs, n + 1 => x :: spliceInsert a xs n

/-- `reorderTasks(columnId, taskIds)`: `taskIds.forEach((taskId, index) =>
updateTaskOrder(taskId, index))` inside one transaction (which cannot fail
here, single `UPDATE`s do not raise).  `columnId` is not consulted. -/
def reorderTasks (st : DbState) (_columnId : String) (taskIds : List String) :
    DbState :=
  (taskIds.enum).foldl
    (fun s p => KanbanDatabase.updateTaskOrder s p.2 (Int.ofNat p.1)) st

/-- `moveTask(taskId, newColumnId, newIndex?)`: update the column reference;
when `newIndex` is given, fetch the destination's current order, drop the
moved id if present (`indexOf`/`splice`), splice it in at `newIndex`, and
persist through `reorderTasks`. -/
def moveTask (st : DbState) (taskId newColumnId : String)
    (newIndex : Option Nat) : DbState :=
  let st1 := KanbanDatabase.moveTask st taskId newColumnId
  match newIndex with
  | none => st1
  | some i =>
    let taskIds := (KanbanDatabase.getTasksByColumn st1 newColumnId).map (·.row.id)
    reorderTasks st1 newColumnId (spliceInsert taskId (taskIds.erase taskId) i)

/-- The body of `createTask(taskData, columnId)`: insert the row (appended
order), then — only for a nonempty tag list — insert the tag associations.
The generated id and the insert's `datetime('now')` are explicit inputs. -/
def createTask (st : DbState) (t : KanbanDatabase.NewTask) (now : String)
    (tags : List String) : DbState :=
  let st1 := KanbanDatabase.createTask st t now
  if tags.length > 0 then KanbanDatabase.addTaskTags st1 t.id tags else st1

/-- The `updates : Partial<Task>` record of the service's `updateTask`. -/
structure TaskUpdates where
  title : Option String
  description : Option String
  assignee : Option String
  dueDate : Option String
  priority : Option String
  tags : Option (List String)
deriving Repr, DecidableEq

/-- `Object.keys(updates).some(key => key !== 'tags')`. -/
def TaskUpdates.hasNonTagField (u : TaskUpdates) : Bool :=
  u.title.isSome || u.description.isSome || u.assignee.isSome ||
    u.dueDate.isSome || u.priority.isSome

/-- The `taskUpdates` record the service builds for the repository. -/
def TaskUpdates.toRowUpdates (u : TaskUpdates) : KanbanDatabase.TaskRowUpdates :=
  ⟨u.title, u.description, u.assignee, u.dueDate, u.priority⟩

/-- `updateTask(taskId, updates)` with fault injection: `not found` short
circuit, then the transaction body — non-tag field update when a non-tag key
is present, tag replacement when `tags` is present.  `storageFault = true`
models any storage error thrown inside the transaction: the `catch` issues
`ROLLBACK`, discarding every write of the operation, and returns `false`. -/
def updateTaskGen (st : DbState) (taskId : String) (u : TaskUpdates)
    (storageFault : Bool) : DbState × Bool :=
  match KanbanDatabase.getTask st taskId with
  | none => (st, false)
  | some _ =>
    let st1 :=
      if u.hasNonTagField then
        (KanbanDatabase.updateTask st taskId u.toRowUpdates).1
      else st
    let st2 :=
      match u.tags with
      | none => st1
      | some ts =>
        let st1a := KanbanDatabase.deleteTaskTags st1 taskId
        if ts.length > 0 then KanbanDatabase.addTaskTags st1a taskId ts else st1a
    if storageFault then (st, false) else (st2, true)

/-- `updateTask` on the fault-free path. -/
def updateTask (st : DbState) (taskId : String) (u : TaskUpdates) :
    DbState × Bool :=
  updateTaskGen st taskId u false

/-- The client-facing `Task` built by `getProjectWithColumns`. -/
structure TaskView where
  id : String
  title : String
  description : String
  assignee : String
  dueDate : String
  priority : String
  tags : List String
deriving Repr, DecidableEq

/-- The client-facing `Column` built by `getProjectWithColumns`. -/
structure ColumnView where
  id : String
  title : String
  color : String
  order : Int
  tasks : List TaskView
deriving Repr, DecidableEq

/-- The client-facing `Project` built by `getProjectWithColumns`. -/
structure ProjectView where
  id : String
  name : String
  description : String
  createdAt : String
  columns : List ColumnView
deriving Repr, DecidableEq

/-- A fetched task row to its client view; tags come from splitting the
concatenated tag string on commas, with JS truthiness on the string. -/
def toTaskView (t : TaskRead) : TaskView :=
  { id := t.row.id, title := t.row.title, description := t.row.description,
    assignee := t.row.assignee, dueDate := t.row.due_date,
    priority := t.row.priority, tags := jsSplitTags t.tags }

/-- `getProjectWithColumns(projectId)`: `null` when the project row is
absent, otherwise the composed tree. -/
def getProjectWithColumns (st : DbState) (projectId : String) :
    Option ProjectView :=
  match KanbanDatabase.getProject st projectId with
  | none => none
  | some p =>
    some
      { id := p.id, name := p.name, description := p.description,
        createdAt := p.created_at,
        columns := (KanbanDatabase.getColumnsByProject st projectId).map
          fun c =>
            { id := c.id, title := c.title, color := c.color,
              order := c.order_index,
              tasks := (KanbanDatabase.getTasksByColumn st c.id).map toTaskView } }

end KanbanService

/-! ### Statement-level operations with schema constraint enforcement -/

/-- One repository write, as issued against SQLite. -/
inductive DbOp where
  | createProject (p : ProjectRow)
  | createColumn (c : ColumnRow)
  | createTask (t : KanbanDatabase.NewTask) (now : String)
  | addTaskTags (taskId : String) (tags : List String)
  | deleteTaskTags (taskId : String)
  | updateProject (projectId : String) (u : KanbanDatabase.ProjectUpdates)
  | updateColumn (columnId : String) (u : KanbanDatabase.ColumnUpdates)
  | updateTask (taskId : String) (u : KanbanDatabase.TaskRowUpdates)
  | deleteProject (projectId : String)
  | deleteColumn (columnId : String)
  | deleteTask (taskId : String)
  | moveTask (taskId newColumnId : String)
  | updateColumnOrder (columnId : String) (ord : Int)
  | updateTaskOrder (taskId : String) (ord : Int)
  | updateColumnsOrder (orders : List (String × Int))
  | updateTasksOrder (orders : List (String × Int))
deriving Repr

/-- Execute one write with the schema's PRIMARY KEY / FOREIGN KEY
enforcement: a statement that would violate a constraint raises, and the
aborted statement leaves the database unchanged. -/
def applyOp (st : DbState) : DbOp → DbState
  | .createProject p =>
    if st.projects.any fun q => q.id == p.id then st
    else KanbanDatabase.createProject st p
  | .createColumn c =>
    if (st.columns.any fun d => d.id == c.id) ||
        !(st.projects.any fun q => q.id == c.project_id) then st
    else KanbanDatabase.createColumn st c
  | .createTask t now =>
    if (st.tasks.any fun r => r.id == t.id) ||
        !(st.columns.any fun c => c.id == t.column_id) then st
    else KanbanDatabase.createTask st t now
  | .addTaskTags taskId tags =>
    if !(st.tasks.any fun r => r.id == taskId) then st
    else KanbanDatabase.addTaskTags st taskId tags
  | .deleteTaskTags taskId => KanbanDatabase.deleteTaskTags st taskId
  | .updateProject projectId u => (KanbanDatabase.updateProject st projectId u).1
  | .updateColumn columnId u => (KanbanDatabase.updateColumn st columnId u).1
  | .updateTask taskId u => (KanbanDatabase.updateTask st taskId u).1
  | .deleteProject projectId => KanbanDatabase.deleteProject st projectId
  | .deleteColumn columnId => KanbanDatabase.deleteColumn st columnId
  | .deleteTask taskId => KanbanDatabase.deleteTask st taskId
  | .moveTask taskId newColumnId =>
    if (st.tasks.any fun r => r.id == taskId) &&
        !(st.columns.any fun c => c.id == newColumnId) then st
    else KanbanDatabase.moveTask st taskId newColumnId
  | .updateColumnOrder columnId ord =>
    KanbanDatabase.updateColumnOrder st columnId ord
  | .updateTaskOrder taskId ord => KanbanDatabase.updateTaskOrder st taskId ord
  | .updateColumnsOrder orders => KanbanDatabase.updateColumnsOrder st orders
  | .updateTasksOrder orders => KanbanDatabase.updateTasksOrder st orders

/-- Referential integrity: every column references a live project, every
task a live column, every tag row a live task. -/
def RefIntegrity (st : DbState) : Prop :=
  (∀ c ∈ st.columns, ∃ p ∈ st.projects, p.id = c.project_id) ∧
    (∀ t ∈ st.tasks, ∃ c ∈ st.columns, c.id = t.column_id) ∧
      (∀ g ∈ st.taskTags, ∃ t ∈ st.tasks, t.id = g.task_id)

instance : DecidablePred RefIntegrity := fun _ => by
  unfold RefIntegrity; infer_instance

/-! ### Derived descriptions used in claim statements -/

/-- Apply a list of `(taskId, order)` assignments to one row, left to
right: the row function applied to every task row by a batch of
`updateTaskOrder` statements. -/
def reassignAll (pairs : List (String × Int)) (r : TaskRow) : TaskRow :=
  pairs.foldl (fun x p =>
    if x.id == p.1 then { x with order_index := p.2 } else x) r

/-- The per-row effect of `reorderTasks(_, taskIds)` for duplicate-free
`taskIds`: a listed task's `order_index` becomes its position in the list. -/
def reassignFn (taskIds : List String) (r : TaskRow) : TaskRow :=
  if r.id ∈ taskIds then
    { r with order_index := Int.ofNat (taskIds.indexOf r.id) }
  else r

/-- The `(taskId, order)` pairs of `reorderTasks`, positions from `k`. -/
def orderPairsFrom (k : Nat) (taskIds : List String) : List (String × Int) :=
  (List.enumFrom k taskIds).map fun p => (p.2, Int.ofNat p.1)

/-- The destination-column id order `moveTask` fetches right after updating
the task's column reference. -/
def fetchedIds (st : DbState) (taskId newColumnId : String) : List String :=
  (KanbanDatabase.getTasksByColumn
    (KanbanDatabase.moveTask st taskId newColumnId) newColumnId).map (·.row.id)

/-- The full destination order `moveTask` persists for `newIndex = i`: the
fetched order with the moved id dropped and spliced back in at `i`. -/
def destOrderAfterMove (st : DbState) (taskId newColumnId : String) (i : Nat) :
    List String :=
  KanbanService.spliceInsert taskId
    ((fetchedIds st taskId newColumnId).erase taskId) i

/-! ### Concrete states for witnesses and counterexamples -/

/-- A task row with the given id, column, creation time and order. -/
def exTask (id columnId : String) (createdAt : String) (ord : Int) : TaskRow :=
  { id := id, column_id := columnId, title := "T", description := "D",
    assignee := "A", due_date := "2025-01-01", priority := "low",
    created_at := createdAt, order_index := ord }

/-- One project, two columns, three tasks in column `c1`, two tags on `t1`. -/
def exState : DbState :=
  { projects := [⟨"p1", "Proj", "Desc", "2024-01-01"⟩],
    columns := [⟨"c1", "p1", "To Do", "bg-blue-500", 1⟩,
                ⟨"c2", "p1", "Done", "bg-green-500", 2⟩],
    tasks := [exTask "t1" "c1" "2024-01-02" 0,
              exTask "t2" "c1" "2024-01-03" 1,
              exTask "t3" "c2" "2024-01-04" 0],
    taskTags := [⟨"t1", "x"⟩, ⟨"t1", "y"⟩] }

/-- A task whose only tag row is the empty-string tag. -/
def exStateEmptyTag : DbState :=
  { projects := [⟨"p1", "Proj", "Desc", "2024-01-01"⟩],
    columns := [⟨"c1", "p1", "To Do", "bg-blue-500", 1⟩],
    tasks := [exTask "t1" "c1" "2024-01-02" 0],
    taskTags := [⟨"t1", ""⟩] }

/-- A task whose title matches a search term only case-insensitively. -/
def exStateSearch : DbState :=
  { projects := [⟨"p1", "Proj", "Desc", "2024-01-01"⟩],
    columns := [⟨"c1", "p1", "To Do", "bg-blue-500", 1⟩],
    tasks := [{ exTask "t1" "c1" "2024-01-02" 0 with
                  title := "Hello", description := "xx", assignee := "yy" }],
    taskTags := [] }

end Kanban

/-! ## Proofs -/

namespace Kanban

/-! ### Generic facts about the `ORDER BY` model -/

theorem insertSorted_perm (le : α → α → Bool) (a : α) (l : List α) :
    (insertSorted le a l).Perm (a :: l) := by
  induction l with
  | nil => exact List.Perm.refl _
  | cons b bs ih =>
    unfold insertSorted
    by_cases h : le a b = true
    · simp [h]
    · simp only [h, if_false, Bool.false_eq_true]
      exact (ih.cons b).trans (List.Perm.swap a b bs)

theorem sortBy_perm (le : α → α → Bool) (l : List α) : (sortBy le l).Perm l := by
  induction l with
  | nil => exact List.Perm.refl _
  | cons a as ih =>
    exact (insertSorted_perm le a (sortBy le as)).trans (ih.cons a)

theorem mem_sortBy {le : α → α → Bool} {l : List α} {a : α} :
    a ∈ sortBy le l ↔ a ∈ l :=
  (sortBy_perm le l).mem_iff

theorem insertSorted_pairwise (le : α → α → Bool)
    (htrans : ∀ x y z, le x y = true → le y z = true → le x z = true)
    (htot : ∀ x y, le x y = true ∨ le y x = true)
    (a : α) (l : List α) (h : l.Pairwise fun x y => le x y = true) :
    (insertSorted le a l).Pairwise fun x y => le x y = true := by
  induction l with
  | nil => simp [insertSorted]
  | cons b bs ih =>
    rcases List.pairwise_cons.mp h with ⟨hb, hbs⟩
    unfold insertSorted
    by_cases hab : le a b = true
    · rw [if_pos hab]
      refine List.pairwise_cons.mpr ⟨?_, h⟩
      intro y hy
      rcases List.mem_cons.mp hy with rfl | hy2
      · exact hab
      · exact htrans a b y hab (hb y hy2)
    · rw [if_neg hab]
      refine List.pairwise_cons.mpr ⟨?_, ih hbs⟩
      intro y hy
      have hmem : y ∈ a :: bs := (insertSorted_perm le a bs).mem_iff.mp hy
      rcases List.mem_cons.mp hmem with rfl | hy2
      · rcases htot y b with h1 | h2
        · exact absurd h1 hab
        · exact h2
      · exact hb y hy2

theorem sortBy_pairwise (le : α → α → Bool)
    (htrans : ∀ x y z, le x y = true → le y z = true → le x z = true)
    (htot : ∀ x y, le x y = true ∨ le y x = true)
    (l : List α) : (sortBy le l).Pairwise fun x y => le x y = true := by
  induction l with
  | nil => simp [sortBy]
  | cons a as ih => exact insertSorted_pairwise le htrans htot a _ ih

theorem strLeChars_cons (a b : Char) (as bs : List Char) :
    strLeChars (a :: as) (b :: bs) = true ↔
      a.toNat < b.toNat ∨ (a.toNat = b.toNat ∧ strLeChars as bs = true) := by
  have hdef : strLeChars (a :: as) (b :: bs) =
      if a.toNat < b.toNat then true
      else if b.toNat < a.toNat then false
      else strLeChars as bs := rfl
  rw [hdef]
  split_ifs with h1 h2
  · simp [h1]
  · simp only [Bool.false_eq_true, false_iff]
    rintro (h | ⟨h, -⟩) <;> omega
  · have he : a.toNat = b.toNat := by omega
    constructor
    · intro h; exact Or.inr ⟨he, h⟩
    · rintro (h | ⟨-, h⟩)
      · omega
      · exact h

theorem strLeChars_total : ∀ a b : List Char,
    strLeChars a b = true ∨ strLeChars b a = true
  | [], _ => Or.inl rfl
  | _ :: _, [] => Or.inr rfl
  | a :: as, b :: bs => by
    rcases Nat.lt_trichotomy a.toNat b.toNat with h | h | h
    · exact Or.inl ((strLeChars_cons a b as bs).mpr (Or.inl h))
    · rcases strLeChars_total as bs with ht | ht
      · exact Or.inl ((strLeChars_cons a b as bs).mpr (Or.inr ⟨h, ht⟩))
      · exact Or.inr ((strLeChars_cons b a bs as).mpr (Or.inr ⟨h.symm, ht⟩))
    · exact Or.inr ((strLeChars_cons b a bs as).mpr (Or.inl h))

theorem strLeChars_trans : ∀ a b c : List Char,
    strLeChars a b = true → strLeChars b c = true → strLeChars a c = true
  | [], _, _, _, _ => rfl
  | _ :: _, [], _, h1, _ => by simp [strLeChars] at h1
  | _ :: _, _ :: _, [], _, h2 => by simp [strLeChars] at h2
  | a :: as, b :: bs, c :: cs, h1, h2 => by
    rcases (strLeChars_cons a b as bs).mp h1 with hab | ⟨hab, hab2⟩ <;>
      rcases (strLeChars_cons b c bs cs).mp h2 with hbc | ⟨hbc, hbc2⟩
    · exact (strLeChars_cons a c as cs).mpr (Or.inl (by omega))
    · exact (strLeChars_cons a c as cs).mpr (Or.inl (by omega))
    · exact (strLeChars_cons a c as cs).mpr (Or.inl (by omega))
    · exact (strLeChars_cons a c as cs).mpr
        (Or.inr ⟨by omega, strLeChars_trans as bs cs hab2 hbc2⟩)

theorem strLe_total (a b : String) : strLe a b = true ∨ strLe b a = true :=
  strLeChars_total a.data b.data

theorem strLe_trans {a b c : String} (h1 : strLe a b = true)
    (h2 : strLe b c = true) : strLe a c = true :=
  strLeChars_trans a.data b.data c.data h1 h2

theorem taskLE_total : ∀ x y : TaskRow, taskLE x y = true ∨ taskLE y x = true := by
  intro x y
  unfold taskLE
  rcases Int.lt_trichotomy x.order_index y.order_index with h | h | h
  · left; simp [h]
  · rcases strLe_total x.created_at y.created_at with hs | hs
    · left; simp [h, hs]
    · right; simp [h.symm, hs]
  · right; simp [h]

theorem taskLE_trans : ∀ x y z : TaskRow,
    taskLE x y = true → taskLE y z = true → taskLE x z = true := by
  intro x y z h1 h2
  unfold taskLE at h1 h2 ⊢
  simp only [Bool.or_eq_true, Bool.and_eq_true, decide_eq_true_eq] at h1 h2 ⊢
  rcases h1 with h1 | ⟨h1, h1s⟩ <;> rcases h2 with h2 | ⟨h2, h2s⟩
  · exact Or.inl (by omega)
  · exact Or.inl (by omega)
  · exact Or.inl (by omega)
  · exact Or.inr ⟨by omega, strLe_trans h1s h2s⟩

theorem colLE_total : ∀ x y : ColumnRow, colLE x y = true ∨ colLE y x = true := by
  intro x y
  unfold colLE
  rcases Int.le_total x.order_index y.order_index with h | h
  · left; simpa using h
  · right; simpa using h

theorem colLE_trans : ∀ x y z : ColumnRow,
    colLE x y = true → colLE y z = true → colLE x z = true := by
  intro x y z h1 h2
  unfold colLE at h1 h2 ⊢
  simp only [decide_eq_true_eq] at h1 h2 ⊢
  omega

theorem recentLE_total : ∀ x y : TaskRow,
    recentLE x y = true ∨ recentLE y x = true := by
  intro x y
  rcases strLe_total y.created_at x.created_at with h | h
  · exact Or.inl h
  · exact Or.inr h

theorem recentLE_trans : ∀ x y z : TaskRow,
    recentLE x y = true → recentLE y z = true → recentLE x z = true := by
  intro x y z h1 h2
  exact strLe_trans h2 h1

end Kanban

namespace Kanban

/-! ### The batch reorder loop, characterised -/

theorem updateTasksFold_eq (pairs : List (String × Int)) (st : DbState) :
    pairs.foldl (fun s p => KanbanDatabase.updateTaskOrder s p.1 p.2) st =
      { st with tasks := st.tasks.map (reassignAll pairs) } := by
  induction pairs generalizing st with
  | nil =>
    have h1 : st.tasks.map (reassignAll []) = st.tasks := List.map_id' st.tasks
    rw [h1]
    rfl
  | cons p ps ih =>
    rw [List.foldl_cons, ih]
    simp only [KanbanDatabase.updateTaskOrder, List.map_map]
    rfl

theorem reorderTasks_eq (st : DbState) (c : String) (ids : List String) :
    KanbanService.reorderTasks st c ids =
      { st with tasks := st.tasks.map (reassignAll (orderPairsFrom 0 ids)) } := by
  have h1 : KanbanService.reorderTasks st c ids =
      (orderPairsFrom 0 ids).foldl
        (fun s p => KanbanDatabase.updateTaskOrder s p.1 p.2) st := by
    unfold KanbanService.reorderTasks orderPairsFrom
    rw [List.foldl_map]
    rfl
  rw [h1, updateTasksFold_eq]

theorem reassignAll_orderPairsFrom {ids : List String} (hN : ids.Nodup) :
    ∀ (k : Nat) (r : TaskRow),
    reassignAll (orderPairsFrom k ids) r =
      if r.id ∈ ids then
        { r with order_index := Int.ofNat (k + ids.indexOf r.id) }
      else r := by
  induction ids with
  | nil => intro k r; simp [orderPairsFrom, reassignAll, List.enumFrom]
  | cons tid rest ih =>
    intro k r
    rcases List.nodup_cons.mp hN with ⟨hnot, hrest⟩
    have hstep : reassignAll (orderPairsFrom k (tid :: rest)) r =
        reassignAll (orderPairsFrom (k + 1) rest)
          (if r.id == tid then { r with order_index := Int.ofNat k } else r) := rfl
    rw [hstep]
    by_cases hr : r.id = tid
    · subst hr
      rw [if_pos (by simp), ih hrest]
      have hid : ({ r with order_index := Int.ofNat k } : TaskRow).id = r.id := rfl
      rw [hid, if_neg hnot, if_pos (List.mem_cons_self _ _),
        List.indexOf_cons_self]
      simp
    · rw [if_neg (by simp [hr]), ih hrest]
      by_cases hmem : r.id ∈ rest
      · rw [if_pos hmem, if_pos (List.mem_cons_of_mem _ hmem),
          List.indexOf_cons_ne rest (fun h => hr h.symm)]
        have harith : k + (List.indexOf r.id rest).succ =
            k + 1 + List.indexOf r.id rest := by omega
        rw [harith]
      · have hnotc : r.id ∉ tid :: rest := by
          intro h
          rcases List.mem_cons.mp h with h | h
          · exact hr h
          · exact hmem h
        rw [if_neg hmem, if_neg hnotc]

theorem reassignFn_id (ids : List String) (r : TaskRow) :
    (reassignFn ids r).id = r.id := by
  unfold reassignFn; split <;> rfl

theorem reassignFn_column (ids : List String) (r : TaskRow) :
    (reassignFn ids r).column_id = r.column_id := by
  unfold reassignFn; split <;> rfl

theorem reorderTasks_tasks (st : DbState) (c : String) {ids : List String}
    (hN : ids.Nodup) :
    (KanbanService.reorderTasks st c ids).tasks = st.tasks.map (reassignFn ids) := by
  rw [reorderTasks_eq]
  refine List.map_congr_left fun r _ => ?_
  rw [reassignAll_orderPairsFrom hN 0 r]
  unfold reassignFn
  split_ifs <;> simp

theorem reorderTasks_projects (st : DbState) (c : String) (ids : List String) :
    (KanbanService.reorderTasks st c ids).projects = st.projects := by
  rw [reorderTasks_eq]

theorem reorderTasks_columns (st : DbState) (c : String) (ids : List String) :
    (KanbanService.reorderTasks st c ids).columns = st.columns := by
  rw [reorderTasks_eq]

theorem reorderTasks_taskTags (st : DbState) (c : String) (ids : List String) :
    (KanbanService.reorderTasks st c ids).taskTags = st.taskTags := by
  rw [reorderTasks_eq]

theorem reassignAll_frame : ∀ (pairs : List (String × Int)) (r : TaskRow),
    { reassignAll pairs r with order_index := r.order_index } = r
  | [], _ => rfl
  | p :: ps, r => by
    have hstep : reassignAll (p :: ps) r =
        reassignAll ps
          (if r.id == p.1 then { r with order_index := p.2 } else r) := rfl
    by_cases h : (r.id == p.1) = true
    · have ih := reassignAll_frame ps { r with order_index := p.2 }
      have h2 := congrArg
        (fun x : TaskRow => { x with order_index := r.order_index }) ih
      simp only at h2
      rw [hstep, if_pos h]
      exact h2.trans rfl
    · rw [hstep, if_neg h]
      exact reassignAll_frame ps r

/-! ### Reading a column back after a reorder -/

theorem taskLE_le {x y : TaskRow} (h : taskLE x y = true) :
    x.order_index ≤ y.order_index := by
  unfold taskLE at h
  simp only [Bool.or_eq_true, Bool.and_eq_true, decide_eq_true_eq] at h
  rcases h with h | ⟨h, -⟩ <;> omega

theorem map_indexOf_range : ∀ {ids : List String}, ids.Nodup →
    (ids.map fun s => ids.indexOf s) = List.range ids.length := by
  intro ids
  induction ids with
  | nil => intro _; rfl
  | cons x xs ih =>
    intro hN
    rcases List.nodup_cons.mp hN with ⟨hx, hxs⟩
    simp only [List.map_cons, List.indexOf_cons_self, List.length_cons,
      List.range_succ_eq_map]
    congr 1
    rw [← ih hxs, List.map_map]
    refine List.map_congr_left fun y hy => ?_
    have hne : x ≠ y := fun h => hx (h ▸ hy)
    simp only [Function.comp_apply]
    rw [List.indexOf_cons_ne xs hne]

theorem getTasksByColumn_map_row (st : DbState) (c : String) :
    (KanbanDatabase.getTasksByColumn st c).map (·.row) =
      sortBy taskLE (st.tasks.filter fun r => r.column_id == c) := by
  unfold KanbanDatabase.getTasksByColumn
  rw [List.map_map]
  exact List.map_id' _

theorem read_after_reorder (st : DbState) (c : String) {ids : List String}
    (hN : ids.Nodup)
    (hperm : ids.Perm
      ((st.tasks.filter fun r => r.column_id == c).map (·.id))) :
    ((KanbanDatabase.getTasksByColumn
        (KanbanService.reorderTasks st c ids) c).map (·.row.id) = ids) ∧
    ((KanbanDatabase.getTasksByColumn
        (KanbanService.reorderTasks st c ids) c).map (·.row.order_index) =
      (List.range ids.length).map Int.ofNat) := by
  have htasks := reorderTasks_tasks st c hN
  have hfilter : ((KanbanService.reorderTasks st c ids).tasks.filter
      fun r => r.column_id == c) =
      (st.tasks.filter fun r => r.column_id == c).map (reassignFn ids) := by
    rw [htasks, List.filter_map]
    congr 1
    refine List.filter_congr fun r _ => ?_
    simp only [Function.comp_apply]
    rw [reassignFn_column]
  have hmemB : ∀ b ∈ st.tasks.filter (fun r => r.column_id == c), b.id ∈ ids :=
    fun b hb => hperm.mem_iff.mpr (List.mem_map_of_mem _ hb)
  have horder : ∀ b ∈ st.tasks.filter (fun r => r.column_id == c),
      reassignFn ids b =
        { b with order_index := Int.ofNat (ids.indexOf b.id) } := by
    intro b hb
    unfold reassignFn
    rw [if_pos (hmemB b hb)]
  have hread_row : (KanbanDatabase.getTasksByColumn
      (KanbanService.reorderTasks st c ids) c).map (·.row) =
      sortBy taskLE ((st.tasks.filter fun r => r.column_id == c).map
        (reassignFn ids)) := by
    rw [getTasksByColumn_map_row, hfilter]
  have hSperm : (sortBy taskLE ((st.tasks.filter fun r => r.column_id == c).map
      (reassignFn ids))).Perm
      ((st.tasks.filter fun r => r.column_id == c).map (reassignFn ids)) :=
    sortBy_perm _ _
  have hS_sorted := sortBy_pairwise taskLE taskLE_trans taskLE_total
    ((st.tasks.filter fun r => r.column_id == c).map (reassignFn ids))
  have hAorder : ((st.tasks.filter fun r => r.column_id == c).map
        (reassignFn ids)).map (·.order_index) =
      ((st.tasks.filter fun r => r.column_id == c).map (·.id)).map
        (fun s => Int.ofNat (ids.indexOf s)) := by
    rw [List.map_map, List.map_map]
    refine List.map_congr_left fun b hb => ?_
    simp only [Function.comp_apply]
    rw [horder b hb]
  have hperm_order : ((sortBy taskLE ((st.tasks.filter
        fun r => r.column_id == c).map (reassignFn ids))).map
          (·.order_index)).Perm ((List.range ids.length).map Int.ofNat) := by
    refine ((hSperm.map _).trans ?_)
    rw [hAorder]
    refine List.Perm.trans ((hperm.map fun s => Int.ofNat (ids.indexOf s)).symm) ?_
    rw [show (ids.map fun s => Int.ofNat (ids.indexOf s)) =
      (ids.map fun s => ids.indexOf s).map Int.ofNat from by rw [List.map_map]; rfl]
    rw [map_indexOf_range hN]
  have hsorted_order : ((sortBy taskLE ((st.tasks.filter
        fun r => r.column_id == c).map (reassignFn ids))).map
          (·.order_index)).Pairwise (· ≤ ·) := by
    rw [List.pairwise_map]
    exact hS_sorted.imp fun h => taskLE_le h
  have hsorted_target :
      ((List.range ids.length).map Int.ofNat).Pairwise
        ((· ≤ ·) : Int → Int → Prop) := by
    rw [List.pairwise_map]
    exact (List.pairwise_lt_range _).imp fun h => Int.ofNat_le.mpr (le_of_lt h)
  have horder_eq : (sortBy taskLE ((st.tasks.filter
        fun r => r.column_id == c).map (reassignFn ids))).map (·.order_index) =
      (List.range ids.length).map Int.ofNat :=
    List.eq_of_perm_of_sorted hperm_order hsorted_order hsorted_target
  have hSmem : ∀ x ∈ sortBy taskLE ((st.tasks.filter
      fun r => r.column_id == c).map (reassignFn ids)),
      x.order_index = Int.ofNat (ids.indexOf x.id) ∧ x.id ∈ ids := by
    intro x hx
    have hx2 := hSperm.mem_iff.mp hx
    rcases List.mem_map.mp hx2 with ⟨b, hb, rfl⟩
    rw [horder b hb]
    refine ⟨rfl, ?_⟩
    have : ({ b with order_index := Int.ofNat (ids.indexOf b.id) } :
        TaskRow).id = b.id := rfl
    rw [this]
    exact hmemB b hb
  have hlenS : (sortBy taskLE ((st.tasks.filter
      fun r => r.column_id == c).map (reassignFn ids))).length = ids.length := by
    have h1 := hSperm.length_eq
    have h2 := hperm.length_eq
    simp only [List.length_map] at h1 h2
    omega
  have hgoal1 : (sortBy taskLE ((st.tasks.filter
      fun r => r.column_id == c).map (reassignFn ids))).map (·.id) = ids := by
    refine List.ext_getElem (by simpa using hlenS) fun k h1 h2 => ?_
    rw [List.getElem_map]
    have hk : k < (sortBy taskLE ((st.tasks.filter
        fun r => r.column_id == c).map (reassignFn ids))).length := by
      simpa using h1
    have hxk := hSmem _ (List.getElem_mem hk)
    have hord : (sortBy taskLE ((st.tasks.filter
        fun r => r.column_id == c).map (reassignFn ids)))[k].order_index =
        Int.ofNat k := by
      have h3 := congrArg (fun l : List Int => l[k]?) horder_eq
      simp only at h3
      rw [List.getElem?_map, List.getElem?_map,
        List.getElem?_eq_getElem hk,
        List.getElem?_eq_getElem (show k < (List.range ids.length).length by
          simpa using h2),
        List.getElem_range] at h3
      simpa using h3
    have hidx : ids.indexOf ((sortBy taskLE ((st.tasks.filter
        fun r => r.column_id == c).map (reassignFn ids)))[k].id) = k := by
      have h4 := hxk.1
      rw [hord] at h4
      exact (Int.ofNat_inj.mp h4).symm
    have hlt : ids.indexOf ((sortBy taskLE ((st.tasks.filter
        fun r => r.column_id == c).map (reassignFn ids)))[k].id) < ids.length :=
      List.indexOf_lt_length.mpr hxk.2
    have h6 : ids[ids.indexOf ((sortBy taskLE ((st.tasks.filter
        fun r => r.column_id == c).map (reassignFn ids)))[k].id)]? =
        some ((sortBy taskLE ((st.tasks.filter
          fun r => r.column_id == c).map (reassignFn ids)))[k].id) := by
      rw [List.getElem?_eq_getElem hlt, List.getElem_indexOf hlt]
    rw [hidx] at h6
    have h7 := List.getElem?_eq_getElem h2
    rw [h6] at h7
    exact Option.some_inj.mp h7
  constructor
  · rw [show (KanbanDatabase.getTasksByColumn
        (KanbanService.reorderTasks st c ids) c).map (·.row.id) =
        ((KanbanDatabase.getTasksByColumn
          (KanbanService.reorderTasks st c ids) c).map (·.row)).map (·.id) from
        by rw [List.map_map]; rfl]
    rw [hread_row]
    exact hgoal1
  · rw [show (KanbanDatabase.getTasksByColumn
        (KanbanService.reorderTasks st c ids) c).map (·.row.order_index) =
        ((KanbanDatabase.getTasksByColumn
          (KanbanService.reorderTasks st c ids) c).map (·.row)).map
            (·.order_index) from by rw [List.map_map]; rfl]
    rw [hread_row]
    exact horder_eq

end Kanban

namespace Kanban

theorem spliceInsert_zero (a : α) (l : List α) :
    KanbanService.spliceInsert a l 0 = a :: l := by
  cases l <;> rfl

theorem spliceInsert_perm (a : α) : ∀ (l : List α) (i : Nat),
    (KanbanService.spliceInsert a l i).Perm (a :: l)
  | l, 0 => by rw [spliceInsert_zero]
  | [], _ + 1 => List.Perm.refl _
  | x :: xs, n + 1 =>
    ((spliceInsert_perm a xs n).cons x).trans (List.Perm.swap a x xs)

theorem spliceInsert_of_le (a : α) : ∀ (l : List α) (i : Nat),
    l.length ≤ i → KanbanService.spliceInsert a l i = l ++ [a]
  | [], 0, _ => rfl
  | [], _ + 1, _ => rfl
  | x :: xs, 0, h => absurd h (by simp)
  | x :: xs, n + 1, h => by
    have ih := spliceInsert_of_le a xs n (by simpa using h)
    simp only [KanbanService.spliceInsert, ih, List.cons_append]

theorem moveTask_map_id (st : DbState) (tid c : String) :
    (KanbanDatabase.moveTask st tid c).tasks.map (·.id) = st.tasks.map (·.id) := by
  unfold KanbanDatabase.moveTask
  rw [List.map_map]
  refine List.map_congr_left fun r _ => ?_
  simp only [Function.comp_apply]
  split <;> rfl

theorem reassignAll_not_listed {r : TaskRow} :
    ∀ {ids : List String}, r.id ∉ ids → ∀ k,
      reassignAll (orderPairsFrom k ids) r = r := by
  intro ids
  induction ids with
  | nil => intro _ k; rfl
  | cons tid rest ih =>
    intro hmem k
    have hstep : reassignAll (orderPairsFrom k (tid :: rest)) r =
        reassignAll (orderPairsFrom (k + 1) rest)
          (if r.id == tid then { r with order_index := Int.ofNat k } else r) := rfl
    rw [hstep, if_neg (by simp; intro h; exact hmem (h ▸ List.mem_cons_self _ _))]
    exact ih (fun h => hmem (List.mem_cons_of_mem _ h)) (k + 1)

/-- C2: `reorderTasks(columnId, orderedTaskIds)` reassigns each listed
task's `orderIndex` to its zero-based position in the list; reading the
column afterwards (ordered by `orderIndex` with `createdAt` tie-break)
yields the tasks in exactly that id order, with `orderIndex` values
`0, 1, 2, …`.  (The loop runs inside one transaction; its single-row
`UPDATE`s cannot fail, so the transaction always commits.) -/
theorem claim2_reorder_read (st : DbState) (c : String) (ids : List String)
    (hN : ids.Nodup)
    (hperm : ids.Perm
      ((st.tasks.filter fun r => r.column_id == c).map (·.id))) :
    (∀ r ∈ (KanbanService.reorderTasks st c ids).tasks, r.id ∈ ids →
      r.order_index = Int.ofNat (ids.indexOf r.id)) ∧
    ((KanbanDatabase.getTasksByColumn
      (KanbanService.reorderTasks st c ids) c).map (·.row.id) = ids) ∧
    ((KanbanDatabase.getTasksByColumn
      (KanbanService.reorderTasks st c ids) c).map (·.row.order_index) =
      (List.range ids.length).map Int.ofNat) := by
  refine ⟨?_, (read_after_reorder st c hN hperm).1,
    (read_after_reorder st c hN hperm).2⟩
  intro r hr hrid
  rw [reorderTasks_tasks st c hN] at hr
  rcases List.mem_map.mp hr with ⟨b, _, rfl⟩
  rw [reassignFn_id] at hrid
  unfold reassignFn
  rw [if_pos hrid]

/-- Witness for C2 on a concrete two-task column. -/
theorem claim2_witness :
    (["t2", "t1"] : List String).Nodup ∧
    (["t2", "t1"] : List String).Perm
      ((exState.tasks.filter fun r => r.column_id == "c1").map (·.id)) ∧
    ((KanbanDatabase.getTasksByColumn
      (KanbanService.reorderTasks exState "c1" ["t2", "t1"]) "c1").map
        (·.row.id) = ["t2", "t1"]) :=
  ⟨by decide, by decide,
    (claim2_reorder_read exState "c1" ["t2", "t1"] (by decide)
      (by decide)).2.1⟩

/-- C1: `moveTask(t.id, c, some i)` first updates the task's column
reference, then recomputes the destination's full order: it fetches the
current task order of `c`, removes the moved id if present, splices it in
at `i` (an index beyond the list length appends at the end), and persists
the result as a dense `0..n-1` reassignment via the batch reorder
transaction; with `i = 0` the task comes first and the remaining fetched
order follows, shifted by one with relative order preserved. -/
theorem claim1_moveTask (st : DbState) (t : TaskRow) (c : String) (i : Nat)
    (hWF : (st.tasks.map (·.id)).Nodup) (ht : t ∈ st.tasks) :
    (KanbanService.moveTask st t.id c (some i) =
      KanbanService.reorderTasks (KanbanDatabase.moveTask st t.id c) c
        (destOrderAfterMove st t.id c i)) ∧
    ((KanbanDatabase.getTasksByColumn
      (KanbanService.moveTask st t.id c (some i)) c).map (·.row.id) =
      destOrderAfterMove st t.id c i) ∧
    ((KanbanDatabase.getTasksByColumn
      (KanbanService.moveTask st t.id c (some i)) c).map (·.row.order_index) =
      (List.range (destOrderAfterMove st t.id c i).length).map Int.ofNat) ∧
    (destOrderAfterMove st t.id c 0 =
      t.id :: (fetchedIds st t.id c).erase t.id) ∧
    (((fetchedIds st t.id c).erase t.id).length ≤ i →
      destOrderAfterMove st t.id c i =
        ((fetchedIds st t.id c).erase t.id) ++ [t.id]) := by
  have hid1 : (KanbanDatabase.moveTask st t.id c).tasks.map (·.id) =
      st.tasks.map (·.id) := moveTask_map_id st t.id c
  have hN1 : ((KanbanDatabase.moveTask st t.id c).tasks.map (·.id)).Nodup := by
    rw [hid1]; exact hWF
  have hfetched_perm : (fetchedIds st t.id c).Perm
      (((KanbanDatabase.moveTask st t.id c).tasks.filter
        fun r => r.column_id == c).map (·.id)) := by
    unfold fetchedIds
    rw [show (KanbanDatabase.getTasksByColumn
        (KanbanDatabase.moveTask st t.id c) c).map (·.row.id) =
        ((KanbanDatabase.getTasksByColumn
          (KanbanDatabase.moveTask st t.id c) c).map (·.row)).map (·.id) from
        by rw [List.map_map]; rfl]
    rw [getTasksByColumn_map_row]
    exact (sortBy_perm _ _).map _
  have hfetched_nodup : (fetchedIds st t.id c).Nodup := by
    refine hfetched_perm.symm.nodup ?_
    have hsub : (((KanbanDatabase.moveTask st t.id c).tasks.filter
        fun r => r.column_id == c).map (·.id)).Sublist
        ((KanbanDatabase.moveTask st t.id c).tasks.map (·.id)) :=
      (List.filter_sublist _).map _
    exact hsub.nodup hN1
  have hmemf : t.id ∈ fetchedIds st t.id c := by
    have hmoved : ({ t with column_id := c } : TaskRow) ∈
        (KanbanDatabase.moveTask st t.id c).tasks := by
      unfold KanbanDatabase.moveTask
      have := List.mem_map_of_mem
        (fun r : TaskRow => if r.id == t.id then { r with column_id := c } else r) ht
      simpa using this
    have hmemB : ({ t with column_id := c } : TaskRow) ∈
        ((KanbanDatabase.moveTask st t.id c).tasks.filter
          fun r => r.column_id == c) :=
      List.mem_filter.mpr ⟨hmoved, by simp⟩
    have hmapped := List.mem_map_of_mem (fun r : TaskRow => r.id) hmemB
    exact hfetched_perm.mem_iff.mpr hmapped
  have hsplice_perm : (destOrderAfterMove st t.id c i).Perm
      (fetchedIds st t.id c) := by
    unfold destOrderAfterMove
    exact (spliceInsert_perm t.id _ i).trans
      (List.perm_cons_erase hmemf).symm
  have hsplice_nodup : (destOrderAfterMove st t.id c i).Nodup :=
    hsplice_perm.symm.nodup hfetched_nodup
  have hsplice_permB : (destOrderAfterMove st t.id c i).Perm
      (((KanbanDatabase.moveTask st t.id c).tasks.filter
        fun r => r.column_id == c).map (·.id)) :=
    hsplice_perm.trans hfetched_perm
  have hmain := read_after_reorder (KanbanDatabase.moveTask st t.id c) c
    hsplice_nodup hsplice_permB
  have heq : KanbanService.moveTask st t.id c (some i) =
      KanbanService.reorderTasks (KanbanDatabase.moveTask st t.id c) c
        (destOrderAfterMove st t.id c i) := rfl
  refine ⟨heq, ?_, ?_, ?_, fun h => spliceInsert_of_le t.id _ i h⟩
  · rw [heq]; exact hmain.1
  · rw [heq]; exact hmain.2
  · unfold destOrderAfterMove
    rw [spliceInsert_zero]

/-- Witness for C1: moving `t3` to the front of column `c1`. -/
theorem claim1_witness :
    ((exState.tasks.map (·.id)).Nodup ∧
      exTask "t3" "c2" "2024-01-04" 0 ∈ exState.tasks) ∧
    ((KanbanDatabase.getTasksByColumn
      (KanbanService.moveTask exState "t3" "c1" (some 0)) "c1").map
        (·.row.id) = destOrderAfterMove exState "t3" "c1" 0) :=
  ⟨⟨by decide, by decide⟩,
    (claim1_moveTask exState (exTask "t3" "c2" "2024-01-04" 0) "c1" 0
      (by decide) (by decide)).2.1⟩

/-- C10: `reorderTasks(columnId, taskIds)` writes the `orderIndex` of
exactly the existing tasks whose ids appear in `taskIds` — wherever they
live, including tasks of a column other than `columnId` — changes no other
row and no other field, and the `columnId` argument does not constrain
which rows are updated. -/
theorem claim10_reorder_frame (st : DbState) (c : String) (ids : List String) :
    ((KanbanService.reorderTasks st c ids).projects = st.projects ∧
      (KanbanService.reorderTasks st c ids).columns = st.columns ∧
      (KanbanService.reorderTasks st c ids).taskTags = st.taskTags ∧
      (KanbanService.reorderTasks st c ids).tasks.length = st.tasks.length) ∧
    (∀ k, k < st.tasks.length →
      ∃ r r', st.tasks[k]? = some r ∧
        (KanbanService.reorderTasks st c ids).tasks[k]? = some r' ∧
        (r.id ∉ ids → r' = r) ∧
        ({ r' with order_index := r.order_index } = r) ∧
        (ids.Nodup → r.id ∈ ids →
          r'.order_index = Int.ofNat (ids.indexOf r.id))) ∧
    (∀ c2, KanbanService.reorderTasks st c ids =
      KanbanService.reorderTasks st c2 ids) := by
  refine ⟨⟨reorderTasks_projects st c ids, reorderTasks_columns st c ids,
    reorderTasks_taskTags st c ids, ?_⟩, ?_, fun c2 => rfl⟩
  · rw [reorderTasks_eq]
    exact List.length_map _ _
  · intro k hk
    have htasks : (KanbanService.reorderTasks st c ids).tasks =
        st.tasks.map (reassignAll (orderPairsFrom 0 ids)) := by
      rw [reorderTasks_eq]
    refine ⟨st.tasks[k], reassignAll (orderPairsFrom 0 ids) st.tasks[k],
      List.getElem?_eq_getElem hk, ?_, ?_, ?_, ?_⟩
    · rw [htasks, List.getElem?_map, List.getElem?_eq_getElem hk]
      rfl
    · intro hnot
      exact reassignAll_not_listed hnot 0
    · exact reassignAll_frame _ _
    · intro hN hmem
      rw [reassignAll_orderPairsFrom hN 0 st.tasks[k], if_pos hmem]
      simp

end Kanban

namespace Kanban

open KanbanDatabase (optMax nextOrderIndex)

/-! ### `createTask` order computation -/

theorem foldl_max_init_le : ∀ (xs : List Int) (m : Int), m ≤ xs.foldl max m := by
  intro xs
  induction xs with
  | nil => intro m; exact le_refl m
  | cons y ys ih =>
    intro m
    exact le_trans (le_max_left m y) (ih (max m y))

theorem foldl_max_le_of_mem : ∀ (xs : List Int) (m v : Int), v ∈ xs →
    v ≤ xs.foldl max m := by
  intro xs
  induction xs with
  | nil => intro m v hv; cases hv
  | cons y ys ih =>
    intro m v hv
    rcases List.mem_cons.mp hv with rfl | hv2
    · exact le_trans (le_max_right m v) (foldl_max_init_le ys (max m v))
    · exact ih (max m y) v hv2

theorem foldl_max_attained : ∀ (xs : List Int) (m : Int),
    xs.foldl max m = m ∨ ∃ v ∈ xs, xs.foldl max m = v := by
  intro xs
  induction xs with
  | nil => intro m; exact Or.inl rfl
  | cons y ys ih =>
    intro m
    rcases ih (max m y) with h | ⟨v, hv, hfold⟩
    · rcases le_total m y with hle | hle
      · exact Or.inr ⟨y, List.mem_cons_self _ _, by
          rw [List.foldl_cons, h]; exact max_eq_right hle⟩
      · exact Or.inl (by rw [List.foldl_cons, h]; exact max_eq_left hle)
    · exact Or.inr ⟨v, List.mem_cons_of_mem _ hv, by rw [List.foldl_cons, hfold]⟩

theorem optMax_cons (x : Int) (xs : List Int) :
    optMax (x :: xs) = some (xs.foldl max x) := by
  have hgo : ∀ (l : List Int) (m : Int),
      l.foldl (fun a v =>
        match a with
        | none => some v
        | some m2 => some (max m2 v)) (some m) = some (l.foldl max m) := by
    intro l
    induction l with
    | nil => intro m; rfl
    | cons y ys ih => intro m; exact ih (max m y)
  exact hgo xs x

theorem le_optMax (l : List Int) (v : Int) (hv : v ∈ l) :
    ∃ m, optMax l = some m ∧ v ≤ m := by
  cases l with
  | nil => cases hv
  | cons x xs =>
    refine ⟨xs.foldl max x, optMax_cons x xs, ?_⟩
    rcases List.mem_cons.mp hv with rfl | hv2
    · exact foldl_max_init_le xs v
    · exact foldl_max_le_of_mem xs x v hv2

theorem createTask_gt (st : DbState) (t : KanbanDatabase.NewTask) :
    ∀ x ∈ st.tasks, x.column_id = t.column_id →
      x.order_index < nextOrderIndex st t.column_id := by
  intro x hx hcol
  have hmemf : x ∈ st.tasks.filter fun r => r.column_id == t.column_id :=
    List.mem_filter.mpr ⟨hx, by simp [hcol]⟩
  have hmemm : x.order_index ∈ (st.tasks.filter
      fun r => r.column_id == t.column_id).map (·.order_index) :=
    List.mem_map_of_mem _ hmemf
  rcases le_optMax _ _ hmemm with ⟨m, hm, hle⟩
  unfold nextOrderIndex
  rw [hm]
  simp only [Option.getD_some]
  omega

/-- C4: a task created into an empty column gets `orderIndex = 0`; a task
created into a nonempty column gets `orderIndex = MAX(existing) + 1`, which
is strictly above every existing task of the column, so consecutive
creations into the same column strictly increase (append-to-end). -/
theorem claim4_createTask_order (st : DbState) (t : KanbanDatabase.NewTask)
    (now : String) :
    ∃ r : TaskRow,
      (KanbanDatabase.createTask st t now).tasks = st.tasks ++ [r] ∧
      r.id = t.id ∧ r.column_id = t.column_id ∧
      ((st.tasks.filter fun x => x.column_id == t.column_id) = [] →
        r.order_index = 0) ∧
      (∀ x ∈ st.tasks, x.column_id = t.column_id →
        x.order_index < r.order_index) ∧
      ((st.tasks.filter fun x => x.column_id == t.column_id) ≠ [] →
        ∃ m, optMax ((st.tasks.filter
            fun x => x.column_id == t.column_id).map (·.order_index)) =
          some m ∧ r.order_index = m + 1) ∧
      (∀ (t2 : KanbanDatabase.NewTask) (now2 : String),
        t2.column_id = t.column_id →
        ∃ r2 : TaskRow,
          (KanbanDatabase.createTask
            (KanbanDatabase.createTask st t now) t2 now2).tasks =
            st.tasks ++ [r, r2] ∧
          r.order_index < r2.order_index) := by
  refine ⟨_, rfl, rfl, rfl, ?_, ?_, ?_, ?_⟩
  · intro hempty
    show nextOrderIndex st t.column_id = 0
    unfold nextOrderIndex
    rw [hempty]
    rfl
  · exact createTask_gt st t
  · intro hne
    rcases List.exists_mem_of_ne_nil _ hne with ⟨x, hx⟩
    have hmemm : x.order_index ∈ (st.tasks.filter
        fun r => r.column_id == t.column_id).map (·.order_index) :=
      List.mem_map_of_mem _ hx
    rcases le_optMax _ _ hmemm with ⟨m, hm, -⟩
    refine ⟨m, hm, ?_⟩
    show nextOrderIndex st t.column_id = m + 1
    unfold nextOrderIndex
    rw [hm]
    rfl
  · intro t2 now2 hcol
    refine ⟨⟨t2.id, t2.column_id, t2.title, t2.description, t2.assignee,
      t2.due_date, t2.priority, now2,
      nextOrderIndex (KanbanDatabase.createTask st t now) t2.column_id⟩,
      ?_, ?_⟩
    · rw [show (KanbanDatabase.createTask
          (KanbanDatabase.createTask st t now) t2 now2).tasks =
          (st.tasks ++ [_]) ++ [_] from rfl, List.append_assoc]
      rfl
    · refine createTask_gt (KanbanDatabase.createTask st t now) t2 _ ?_ ?_
      · exact List.mem_append_right _ (List.mem_cons_self _ _)
      · show t.column_id = t2.column_id
        exact hcol.symm

/-- Witness for C4 on a concrete state: empty column and nonempty column. -/
theorem claim4_witness :
    (∃ r : TaskRow,
      (KanbanDatabase.createTask exState
        ⟨"t9", "cEmpty", "T", "D", "A", "d", "low"⟩ "2024-02-01").tasks =
        exState.tasks ++ [r] ∧
      r.id = "t9" ∧ r.column_id = "cEmpty" ∧
      ((exState.tasks.filter fun x => x.column_id == "cEmpty") = [] →
        r.order_index = 0) ∧
      (∀ x ∈ exState.tasks, x.column_id = "cEmpty" →
        x.order_index < r.order_index) ∧
      ((exState.tasks.filter fun x => x.column_id == "cEmpty") ≠ [] →
        ∃ m, optMax ((exState.tasks.filter
            fun x => x.column_id == "cEmpty").map (·.order_index)) =
          some m ∧ r.order_index = m + 1) ∧
      (∀ (t2 : KanbanDatabase.NewTask) (now2 : String),
        t2.column_id = "cEmpty" →
        ∃ r2 : TaskRow,
          (KanbanDatabase.createTask (KanbanDatabase.createTask exState
            ⟨"t9", "cEmpty", "T", "D", "A", "d", "low"⟩ "2024-02-01")
              t2 now2).tasks = exState.tasks ++ [r, r2] ∧
          r.order_index < r2.order_index)) ∧
    nextOrderIndex exState "cEmpty" = 0 ∧ nextOrderIndex exState "c1" = 2 :=
  ⟨claim4_createTask_order exState
    ⟨"t9", "cEmpty", "T", "D", "A", "d", "low"⟩ "2024-02-01",
    by decide, by decide⟩

/-- C8: a partial update whose fields object is empty returns the
"no changes" boolean `false` and leaves every table untouched, for each of
the three entities. -/
theorem claim8_empty_update (st : DbState) (pid cid tid : String) :
    KanbanDatabase.updateProject st pid ⟨none, none⟩ = (st, false) ∧
    KanbanDatabase.updateColumn st cid ⟨none, none⟩ = (st, false) ∧
    KanbanDatabase.updateTask st tid ⟨none, none, none, none, none⟩ =
      (st, false) := by
  refine ⟨?_, ?_, ?_⟩ <;>
    simp [KanbanDatabase.updateProject, KanbanDatabase.updateColumn,
      KanbanDatabase.updateTask, KanbanDatabase.TaskRowUpdates.isEmptyRec]

end Kanban

namespace Kanban

/-! ### `updateTask` (service): not-found, transaction body, rollback -/

theorem find_task_eq : ∀ {l : List TaskRow},
    (l.map (·.id)).Nodup → ∀ {r : TaskRow}, r ∈ l →
    (l.find? fun x => x.id == r.id) = some r := by
  intro l
  induction l with
  | nil => intro _ r hr; cases hr
  | cons x xs ih =>
    intro hN r hr
    rcases List.nodup_cons.mp hN with ⟨hx, hxs⟩
    rcases List.mem_cons.mp hr with rfl | hr2
    · simp [List.find?]
    · have hne2 : (x.id == r.id) = false := by
        simp only [beq_eq_false_iff_ne, ne_eq]
        intro h
        exact hx (show x.id ∈ xs.map (fun y => y.id) from by
          rw [h]; exact List.mem_map_of_mem (·.id) hr2)
      rw [show (List.find? (fun y => y.id == r.id) (x :: xs)) =
        List.find? (fun y => y.id == r.id) xs from by
          simp [List.find?, hne2]]
      exact ih hxs hr2

theorem getTask_some {st : DbState} (hWF : (st.tasks.map (·.id)).Nodup)
    {r : TaskRow} (hr : r ∈ st.tasks) :
    KanbanDatabase.getTask st r.id = some (annotateTask st r) := by
  unfold KanbanDatabase.getTask
  rw [find_task_eq hWF hr]
  rfl

theorem mem_insertTagRows (tid : String) :
    ∀ (tags : List String) (rows : List TagRow) (g : TagRow),
      g ∈ KanbanDatabase.insertTagRows rows tid tags ↔
        g ∈ rows ∨ (g.task_id = tid ∧ g.tag_name ∈ tags)
  | [], rows, g => by simp [KanbanDatabase.insertTagRows]
  | tg :: tgs, rows, g => by
    unfold KanbanDatabase.insertTagRows
    by_cases hp : (rows.any fun x => x.task_id == tid && x.tag_name == tg) = true
    · rw [if_pos hp, mem_insertTagRows tid tgs rows g]
      constructor
      · rintro (h | ⟨h1, h2⟩)
        · exact Or.inl h
        · exact Or.inr ⟨h1, List.mem_cons_of_mem _ h2⟩
      · rintro (h | ⟨h1, h2⟩)
        · exact Or.inl h
        · rcases List.mem_cons.mp h2 with h2e | h3
          · left
            rcases List.any_eq_true.mp hp with ⟨x, hxmem, hxe⟩
            simp only [Bool.and_eq_true, beq_iff_eq] at hxe
            have hg : g = (⟨tid, tg⟩ : TagRow) := congrArg₂ TagRow.mk h1 h2e
            have hx2 : x = (⟨tid, tg⟩ : TagRow) :=
              congrArg₂ TagRow.mk hxe.1 hxe.2
            rw [hg, ← hx2]
            exact hxmem
          · exact Or.inr ⟨h1, h3⟩
    · rw [if_neg hp]
      refine (mem_insertTagRows tid tgs (rows ++ [⟨tid, tg⟩]) g).trans ?_
      constructor
      · rintro (h | ⟨h1, h2⟩)
        · rcases List.mem_append.mp h with h | h
          · exact Or.inl h
          · rcases List.mem_singleton.mp h with rfl
            exact Or.inr ⟨rfl, List.mem_cons_self _ _⟩
        · exact Or.inr ⟨h1, List.mem_cons_of_mem _ h2⟩
      · rintro (h | ⟨h1, h2⟩)
        · exact Or.inl (List.mem_append_left _ h)
        · rcases List.mem_cons.mp h2 with h2e | h3
          · refine Or.inl (List.mem_append_right _ ?_)
            have hg : g = (⟨tid, tg⟩ : TagRow) := congrArg₂ TagRow.mk h1 h2e
            rw [hg]
            exact List.mem_singleton.mpr rfl
          · exact Or.inr ⟨h1, h3⟩

theorem insertTagRows_names_nodup (tid : String) :
    ∀ (tags : List String) (rows : List TagRow),
      ((rows.filter fun g => g.task_id == tid).map (·.tag_name)).Nodup →
      (((KanbanDatabase.insertTagRows rows tid tags).filter
        fun g => g.task_id == tid).map (·.tag_name)).Nodup
  | [], _, h => h
  | tg :: tgs, rows, h => by
    unfold KanbanDatabase.insertTagRows
    by_cases hp : (rows.any fun x => x.task_id == tid && x.tag_name == tg) = true
    · rw [if_pos hp]
      exact insertTagRows_names_nodup tid tgs rows h
    · rw [if_neg hp]
      refine insertTagRows_names_nodup tid tgs (rows ++ [⟨tid, tg⟩]) ?_
      rw [List.filter_append, List.map_append]
      have hsingle : ((([⟨tid, tg⟩] : List TagRow).filter
          fun g => g.task_id == tid).map (·.tag_name)) = [tg] := by simp
      rw [hsingle]
      refine List.Nodup.append h (List.nodup_singleton tg) ?_
      intro a ha hb
      rcases List.mem_singleton.mp hb with rfl
      apply hp
      rcases List.mem_map.mp ha with ⟨g, hg, rfl⟩
      have hgf := List.mem_filter.mp hg
      refine List.any_eq_true.mpr ⟨g, hgf.1, ?_⟩
      simp [beq_iff_eq.mp hgf.2]

theorem deleteTaskTags_filter (st : DbState) (tid : String) :
    (KanbanDatabase.deleteTaskTags st tid).taskTags.filter
      (fun g => g.task_id == tid) = [] := by
  rw [List.filter_eq_nil]
  intro g hg
  have h2 := (List.mem_filter.mp hg).2
  simp only [Bool.not_eq_true'] at h2
  simp [h2]

theorem hasNonTag_isEmpty (u : KanbanService.TaskUpdates) :
    u.toRowUpdates.isEmptyRec = !u.hasNonTagField := by
  unfold KanbanService.TaskUpdates.toRowUpdates
    KanbanService.TaskUpdates.hasNonTagField
    KanbanDatabase.TaskRowUpdates.isEmptyRec
  cases u.title <;> cases u.description <;> cases u.assignee <;>
    cases u.dueDate <;> cases u.priority <;> rfl

theorem applyTaskUpdates_id (u : KanbanDatabase.TaskRowUpdates) (r : TaskRow) :
    (KanbanDatabase.applyTaskUpdates u r).id = r.id := rfl

theorem updateTask_st1 (st : DbState) (tid : String)
    (u : KanbanService.TaskUpdates) :
    (if u.hasNonTagField then
        (KanbanDatabase.updateTask st tid u.toRowUpdates).1 else st) =
      { st with tasks := st.tasks.map fun x =>
          if x.id == tid then KanbanDatabase.applyTaskUpdates u.toRowUpdates x
          else x } := by
  by_cases h : u.hasNonTagField = true
  · rw [if_pos h]
    unfold KanbanDatabase.updateTask
    rw [if_neg (by rw [hasNonTag_isEmpty, h]; simp)]
  · rw [if_neg h]
    have happly : ∀ x, KanbanDatabase.applyTaskUpdates u.toRowUpdates x = x := by
      intro x
      unfold KanbanService.TaskUpdates.hasNonTagField at h
      unfold KanbanDatabase.applyTaskUpdates KanbanService.TaskUpdates.toRowUpdates
      rcases u with ⟨t1, t2, t3, t4, t5, t6⟩
      cases t1 <;> cases t2 <;> cases t3 <;> cases t4 <;> cases t5 <;>
        first | rfl | simp_all
    have hmap : st.tasks.map (fun x => if x.id == tid then
        KanbanDatabase.applyTaskUpdates u.toRowUpdates x else x) = st.tasks := by
      have h2 : st.tasks.map (fun x => if x.id == tid then
          KanbanDatabase.applyTaskUpdates u.toRowUpdates x else x) =
          st.tasks.map (fun x => x) := by
        refine List.map_congr_left fun x _ => ?_
        rw [happly x]
        split <;> rfl
      rw [h2, List.map_id']
    rw [hmap]

end Kanban

namespace Kanban

theorem mem_deleteTaskTags {st : DbState} {tid : String} {g : TagRow}
    (hg : g.task_id ≠ tid) :
    g ∈ (KanbanDatabase.deleteTaskTags st tid).taskTags ↔ g ∈ st.taskTags := by
  unfold KanbanDatabase.deleteTaskTags
  simp only
  rw [List.mem_filter]
  constructor
  · exact fun h => h.1
  · intro h
    exact ⟨h, by simp [hg]⟩

theorem names_mem_iff {rows : List TagRow} {tid s : String} :
    s ∈ (rows.filter fun g => g.task_id == tid).map (·.tag_name) ↔
      ∃ g ∈ rows, g.task_id = tid ∧ g.tag_name = s := by
  rw [List.mem_map]
  constructor
  · rintro ⟨g, hg, rfl⟩
    have h2 := List.mem_filter.mp hg
    exact ⟨g, h2.1, beq_iff_eq.mp h2.2, rfl⟩
  · rintro ⟨g, hg, h1, rfl⟩
    exact ⟨g, List.mem_filter.mpr ⟨hg, by simp [h1]⟩, rfl⟩

/-- C3: the service's `updateTask(taskId, fields)` returns "not found"
(`false`, no write) when the task does not exist; otherwise, inside one
transaction, it applies the partial non-tag field update and — when `tags`
is present, even empty — deletes all the task's tag rows and re-inserts the
new set; it returns `true` when both steps succeed, and a storage failure
inside the transaction rolls back every write of the operation and returns
`false`. -/
theorem claim3_updateTask (st : DbState) (tid : String)
    (u : KanbanService.TaskUpdates) (hWF : (st.tasks.map (·.id)).Nodup) :
    (KanbanDatabase.getTask st tid = none →
      ∀ fault, KanbanService.updateTaskGen st tid u fault = (st, false)) ∧
    (KanbanDatabase.getTask st tid ≠ none →
      KanbanService.updateTaskGen st tid u true = (st, false)) ∧
    (∀ r ∈ st.tasks, r.id = tid →
      (KanbanService.updateTask st tid u).2 = true ∧
      (KanbanService.updateTask st tid u).1.projects = st.projects ∧
      (KanbanService.updateTask st tid u).1.columns = st.columns ∧
      (KanbanDatabase.getTask (KanbanService.updateTask st tid u).1 tid =
        some (annotateTask (KanbanService.updateTask st tid u).1
          (KanbanDatabase.applyTaskUpdates u.toRowUpdates r))) ∧
      (∀ x ∈ st.tasks, x.id ≠ tid →
        x ∈ (KanbanService.updateTask st tid u).1.tasks) ∧
      (u.tags = none →
        (KanbanService.updateTask st tid u).1.taskTags = st.taskTags) ∧
      (∀ ts, u.tags = some ts →
        (tagNamesOf (KanbanService.updateTask st tid u).1 tid).Nodup ∧
        (∀ s, s ∈ tagNamesOf (KanbanService.updateTask st tid u).1 tid ↔
          s ∈ ts) ∧
        (∀ g : TagRow, g.task_id ≠ tid →
          (g ∈ (KanbanService.updateTask st tid u).1.taskTags ↔
            g ∈ st.taskTags)))) := by
  refine ⟨?_, ?_, ?_⟩
  · intro hnone fault
    unfold KanbanService.updateTaskGen
    rw [hnone]
  · intro hsome
    rcases Option.ne_none_iff_exists'.mp hsome with ⟨v, hv⟩
    unfold KanbanService.updateTaskGen
    rw [hv]
    rfl
  · intro r hr hid
    subst hid
    have hGet : KanbanDatabase.getTask st r.id = some (annotateTask st r) :=
      getTask_some hWF hr
    obtain ⟨st2, hval, htasks2, hproj2, hcols2, htags2⟩ :
        ∃ st2, KanbanService.updateTask st r.id u = (st2, true) ∧
          st2.tasks = (st.tasks.map fun x =>
            if x.id == r.id then
              KanbanDatabase.applyTaskUpdates u.toRowUpdates x
            else x) ∧
          st2.projects = st.projects ∧ st2.columns = st.columns ∧
          ((u.tags = none ∧ st2.taskTags = st.taskTags) ∨
            (∃ ts, u.tags = some ts ∧ st2.taskTags =
              KanbanDatabase.insertTagRows
                (st.taskTags.filter fun g => !(g.task_id == r.id))
                r.id ts)) := by
      rcases htags : u.tags with _ | ts
      · refine ⟨{ projects := st.projects, columns := st.columns,
                  tasks := st.tasks.map (fun x =>
                    if x.id == r.id then
                      KanbanDatabase.applyTaskUpdates u.toRowUpdates x
                    else x),
                  taskTags := st.taskTags },
          ?_, rfl, rfl, rfl, Or.inl ⟨rfl, rfl⟩⟩
        simp only [KanbanService.updateTask, KanbanService.updateTaskGen,
          hGet, htags, updateTask_st1 st r.id u]
        rfl
      · refine ⟨{ projects := st.projects, columns := st.columns,
                  tasks := st.tasks.map (fun x =>
                    if x.id == r.id then
                      KanbanDatabase.applyTaskUpdates u.toRowUpdates x
                    else x),
                  taskTags := KanbanDatabase.insertTagRows
                    (st.taskTags.filter fun g => !(g.task_id == r.id))
                    r.id ts },
          ?_, rfl, rfl, rfl, Or.inr ⟨ts, rfl, rfl⟩⟩
        by_cases hlen : ts.length > 0
        · simp only [KanbanService.updateTask, KanbanService.updateTaskGen,
            hGet, htags, updateTask_st1 st r.id u, if_pos hlen]
          rfl
        · have hts : ts = [] := by
            cases ts with
            | nil => rfl
            | cons a as => exact absurd (by simp) hlen
          subst hts
          simp only [KanbanService.updateTask, KanbanService.updateTaskGen,
            hGet, htags, updateTask_st1 st r.id u, if_neg hlen]
          rfl
    have hN2 : ((KanbanService.updateTask st r.id u).1.tasks.map
        (·.id)).Nodup := by
      rw [hval]
      show (st2.tasks.map (·.id)).Nodup
      rw [htasks2, List.map_map]
      have hcomp : ((fun x : TaskRow => x.id) ∘ fun x =>
          if x.id == r.id then
            KanbanDatabase.applyTaskUpdates u.toRowUpdates x
          else x) = fun x : TaskRow => x.id := by
        funext x
        simp only [Function.comp_apply]
        split <;> rfl
      rw [hcomp]
      exact hWF
    have hmem2 : KanbanDatabase.applyTaskUpdates u.toRowUpdates r ∈
        (KanbanService.updateTask st r.id u).1.tasks := by
      rw [hval]
      show _ ∈ st2.tasks
      rw [htasks2]
      have := List.mem_map_of_mem (fun x : TaskRow =>
        if x.id == r.id then
          KanbanDatabase.applyTaskUpdates u.toRowUpdates x
        else x) hr
      simpa using this
    refine ⟨by rw [hval], by rw [hval]; exact hproj2,
      by rw [hval]; exact hcols2, ?_, ?_, ?_, ?_⟩
    · exact getTask_some hN2 hmem2
    · intro x hx hne
      rw [hval]
      show x ∈ st2.tasks
      rw [htasks2]
      exact List.mem_map.mpr ⟨x, hx, by simp [hne]⟩
    · intro hnone
      rcases htags2 with ⟨-, he⟩ | ⟨ts, hs, -⟩
      · rw [hval]
        exact he
      · rw [hnone] at hs
        cases hs
    · intro ts0 hsome
      rcases htags2 with ⟨hn, -⟩ | ⟨ts, hs, hrows⟩
      · rw [hsome] at hn
        cases hn
      · rw [hsome] at hs
        have hts : ts = ts0 := Option.some_inj.mp hs.symm
        subst hts
        have hbase : ((st.taskTags.filter fun g => !(g.task_id == r.id)).filter
            fun g => g.task_id == r.id) = [] := deleteTaskTags_filter st r.id
        refine ⟨?_, ?_, ?_⟩
        · show (((KanbanService.updateTask st r.id u).1.taskTags.filter
            fun g => g.task_id == r.id).map (·.tag_name)).Nodup
          rw [hval]
          show (((st2.taskTags.filter
            fun g => g.task_id == r.id).map (·.tag_name))).Nodup
          rw [hrows]
          exact insertTagRows_names_nodup r.id ts _
            (by rw [hbase]; exact List.Pairwise.nil)
        · intro s
          show s ∈ (((KanbanService.updateTask st r.id u).1.taskTags.filter
            fun g => g.task_id == r.id).map (·.tag_name)) ↔ s ∈ ts
          rw [hval]
          show s ∈ (((st2.taskTags.filter
            fun g => g.task_id == r.id).map (·.tag_name))) ↔ s ∈ ts
          rw [hrows, names_mem_iff]
          constructor
          · rintro ⟨g, hg, h1, rfl⟩
            rcases (mem_insertTagRows r.id ts _ g).mp hg with h | ⟨-, h⟩
            · exfalso
              have h2 := (List.mem_filter.mp h).2
              simp only [Bool.not_eq_true'] at h2
              exact absurd (beq_iff_eq.mpr h1) (by simp [h2])
            · exact h
          · intro hs2
            exact ⟨⟨r.id, s⟩, (mem_insertTagRows r.id ts _ _).mpr
              (Or.inr ⟨rfl, hs2⟩), rfl, rfl⟩
        · intro g hg
          rw [hval]
          show g ∈ st2.taskTags ↔ g ∈ st.taskTags
          rw [hrows, mem_insertTagRows r.id ts _ g]
          constructor
          · rintro (h | ⟨h1, -⟩)
            · exact (List.mem_filter.mp h).1
            · exact absurd h1 hg
          · intro h
            exact Or.inl (List.mem_filter.mpr ⟨h, by simp [hg]⟩)

end Kanban

namespace Kanban

/-- Witness for C3: update `t1`'s title and replace its tags. -/
theorem claim3_witness :
    ((exState.tasks.map (·.id)).Nodup ∧
      exTask "t1" "c1" "2024-01-02" 0 ∈ exState.tasks ∧
      (exTask "t1" "c1" "2024-01-02" 0).id = "t1") ∧
    (KanbanService.updateTask exState "t1"
      ⟨some "New", none, none, none, none, some ["z"]⟩).2 = true :=
  ⟨⟨by decide, by decide, by decide⟩,
    ((claim3_updateTask exState "t1"
      ⟨some "New", none, none, none, none, some ["z"]⟩ (by decide)).2.2
      (exTask "t1" "c1" "2024-01-02" 0) (by decide) (by decide)).1⟩

/-! ### Comma join / split round trip -/

theorem splitCommaChars_no_comma : ∀ {p : List Char}, ',' ∉ p →
    splitCommaChars p = [p]
  | [], _ => rfl
  | c :: cs, h => by
    have hc : ¬ c = ',' := fun he => h (he ▸ List.mem_cons_self c cs)
    unfold splitCommaChars
    rw [if_neg hc,
      splitCommaChars_no_comma (fun hm => h (List.mem_cons_of_mem _ hm))]

theorem splitCommaChars_append : ∀ {p : List Char}, ',' ∉ p →
    ∀ r : List Char, splitCommaChars (p ++ ',' :: r) = p :: splitCommaChars r
  | [], _, r => by
    rw [List.nil_append]
    simp [splitCommaChars]
  | c :: cs, h, r => by
    have hc : ¬ c = ',' := fun he => h (he ▸ List.mem_cons_self c cs)
    show splitCommaChars (c :: (cs ++ ',' :: r)) = (c :: cs) :: splitCommaChars r
    simp only [splitCommaChars]
    rw [if_neg hc,
      splitCommaChars_append (fun hm => h (List.mem_cons_of_mem _ hm)) r]

theorem split_join_chars : ∀ {ps : List (List Char)}, ps ≠ [] →
    (∀ p ∈ ps, ',' ∉ p) → splitCommaChars (joinCommaChars ps) = ps
  | [], h, _ => absurd rfl h
  | [p], _, hc => by
    rw [show joinCommaChars [p] = p from rfl]
    exact splitCommaChars_no_comma (hc p (List.mem_singleton.mpr rfl))
  | p :: q :: rest, _, hc => by
    rw [show joinCommaChars (p :: q :: rest) =
      p ++ ',' :: joinCommaChars (q :: rest) from rfl]
    rw [splitCommaChars_append (hc p (List.mem_cons_self _ _)) _,
      split_join_chars (List.cons_ne_nil q rest)
        (fun x hx => hc x (List.mem_cons_of_mem _ hx))]

theorem jsSplitComma_commaJoin (parts : List String) (hne : parts ≠ [])
    (hc : ∀ s ∈ parts, ',' ∉ s.data) :
    jsSplitComma (commaJoin parts) = parts := by
  unfold jsSplitComma commaJoin
  rw [show (String.mk (joinCommaChars (parts.map String.data))).data =
    joinCommaChars (parts.map String.data) from rfl]
  rw [split_join_chars (by simpa using hne) (by
    intro p hp
    rcases List.mem_map.mp hp with ⟨s, hs, rfl⟩
    exact hc s hs)]
  rw [List.map_map]
  have hid : ∀ s : String, String.mk s.data = s := fun s => rfl
  refine (List.map_congr_left fun s _ => ?_).trans (List.map_id' parts)
  exact hid s

theorem find?_append_of_none {l1 l2 : List α} {p : α → Bool}
    (h : ∀ x ∈ l1, ¬p x = true) : (l1 ++ l2).find? p = l2.find? p := by
  induction l1 with
  | nil => rfl
  | cons a l ih =>
    have hpa : p a = false := by
      cases hpa2 : p a
      · rfl
      · exact absurd hpa2 (h a (List.mem_cons_self _ _))
    rw [List.cons_append, show List.find? p (a :: (l ++ l2)) =
      List.find? p (l ++ l2) from by simp [List.find?, hpa]]
    exact ih fun x hx => h x (List.mem_cons_of_mem _ hx)

/-- C9: creating a task with a nonempty tag list, reading it back and
splitting the returned tag string on commas reproduces exactly the stored
tag names, whose set is the set of the supplied tags; duplicate supplied
tags collapse (the stored names are duplicate-free). -/
theorem claim9_tag_roundtrip (st : DbState) (t : KanbanDatabase.NewTask)
    (now : String) (tags : List String)
    (hfresh : ∀ x ∈ st.tasks, x.id ≠ t.id)
    (hclean : ∀ g ∈ st.taskTags, g.task_id ≠ t.id)
    (hne : tags ≠ [])
    (hcomma : ∀ s ∈ tags, ',' ∉ s.data) :
    ∃ rd : TaskRead,
      KanbanDatabase.getTask (KanbanService.createTask st t now tags) t.id =
        some rd ∧
      rd.tags = some (commaJoin
        (tagNamesOf (KanbanService.createTask st t now tags) t.id)) ∧
      jsSplitComma (commaJoin
        (tagNamesOf (KanbanService.createTask st t now tags) t.id)) =
        tagNamesOf (KanbanService.createTask st t now tags) t.id ∧
      (tagNamesOf (KanbanService.createTask st t now tags) t.id).Nodup ∧
      (∀ s, s ∈ tagNamesOf (KanbanService.createTask st t now tags) t.id ↔
        s ∈ tags) := by
  have hlen : tags.length > 0 := by
    cases tags with
    | nil => exact absurd rfl hne
    | cons a as => simp
  have hsvc : KanbanService.createTask st t now tags =
      KanbanDatabase.addTaskTags (KanbanDatabase.createTask st t now)
        t.id tags := by
    unfold KanbanService.createTask
    rw [if_pos hlen]
  have hbase : (st.taskTags.filter fun g => g.task_id == t.id) = [] := by
    rw [List.filter_eq_nil]
    intro g hg
    simp [hclean g hg]
  have htags' : (KanbanService.createTask st t now tags).taskTags =
      KanbanDatabase.insertTagRows st.taskTags t.id tags := by
    rw [hsvc]
    rfl
  have hnames_mem : ∀ s,
      s ∈ tagNamesOf (KanbanService.createTask st t now tags) t.id ↔
        s ∈ tags := by
    intro s
    show s ∈ (((KanbanService.createTask st t now tags).taskTags.filter
      fun g => g.task_id == t.id).map (·.tag_name)) ↔ s ∈ tags
    rw [htags', names_mem_iff]
    constructor
    · rintro ⟨g, hg, h1, rfl⟩
      rcases (mem_insertTagRows t.id tags st.taskTags g).mp hg with h | ⟨-, h⟩
      · exact absurd h1 (hclean g h)
      · exact h
    · intro hs
      exact ⟨⟨t.id, s⟩, (mem_insertTagRows t.id tags st.taskTags _).mpr
        (Or.inr ⟨rfl, hs⟩), rfl, rfl⟩
  have hnames_nodup :
      (tagNamesOf (KanbanService.createTask st t now tags) t.id).Nodup := by
    show (((KanbanService.createTask st t now tags).taskTags.filter
      fun g => g.task_id == t.id).map (·.tag_name)).Nodup
    rw [htags']
    exact insertTagRows_names_nodup t.id tags st.taskTags
      (by rw [hbase]; exact List.Pairwise.nil)
  have hnames_ne : tagNamesOf (KanbanService.createTask st t now tags) t.id ≠
      [] := by
    rcases List.exists_mem_of_ne_nil tags hne with ⟨a, ha⟩
    exact List.ne_nil_of_mem ((hnames_mem a).mpr ha)
  have hnames_comma : ∀ s ∈ tagNamesOf
      (KanbanService.createTask st t now tags) t.id, ',' ∉ s.data :=
    fun s hs => hcomma s ((hnames_mem s).mp hs)
  have hsplit := jsSplitComma_commaJoin _ hnames_ne hnames_comma
  have hconcat : concatTags (tagNamesOf
      (KanbanService.createTask st t now tags) t.id) =
      some (commaJoin (tagNamesOf
        (KanbanService.createTask st t now tags) t.id)) := by
    cases hn : tagNamesOf (KanbanService.createTask st t now tags) t.id with
    | nil => exact absurd hn hnames_ne
    | cons a as => rfl
  have htasks' : (KanbanService.createTask st t now tags).tasks =
      st.tasks ++ [KanbanDatabase.newTaskRow st t now] := by
    rw [hsvc]
    rfl
  refine ⟨annotateTask (KanbanService.createTask st t now tags)
    (KanbanDatabase.newTaskRow st t now), ?_, ?_,
    hsplit, hnames_nodup, hnames_mem⟩
  · unfold KanbanDatabase.getTask
    rw [htasks', find?_append_of_none (by
      intro x hx
      simp [hfresh x hx])]
    rw [show List.find? (fun x => x.id == t.id)
        [KanbanDatabase.newTaskRow st t now] =
        some (KanbanDatabase.newTaskRow st t now) from by
      simp [List.find?, KanbanDatabase.newTaskRow]]
    rfl
  · show concatTags (tagNamesOf (KanbanService.createTask st t now tags)
      (KanbanDatabase.newTaskRow st t now).id) =
      some (commaJoin (tagNamesOf
        (KanbanService.createTask st t now tags) t.id))
    exact hconcat

/-- Witness for C9: creating `t9` with tags `["a", "b", "a"]`. -/
theorem claim9_witness :
    ((∀ x ∈ exState.tasks, x.id ≠ "t9") ∧
      (∀ g ∈ exState.taskTags, g.task_id ≠ "t9") ∧
      (["a", "b", "a"] : List String) ≠ [] ∧
      (∀ s ∈ (["a", "b", "a"] : List String), ',' ∉ s.data)) ∧
    (∃ rd : TaskRead,
      KanbanDatabase.getTask (KanbanService.createTask exState
        ⟨"t9", "c1", "T", "D", "A", "d", "low"⟩ "2024-03-01"
        ["a", "b", "a"]) "t9" = some rd ∧
      rd.tags = some (commaJoin (tagNamesOf (KanbanService.createTask exState
        ⟨"t9", "c1", "T", "D", "A", "d", "low"⟩ "2024-03-01"
        ["a", "b", "a"]) "t9")) ∧
      jsSplitComma (commaJoin (tagNamesOf (KanbanService.createTask exState
        ⟨"t9", "c1", "T", "D", "A", "d", "low"⟩ "2024-03-01"
        ["a", "b", "a"]) "t9")) =
        tagNamesOf (KanbanService.createTask exState
          ⟨"t9", "c1", "T", "D", "A", "d", "low"⟩ "2024-03-01"
          ["a", "b", "a"]) "t9" ∧
      (tagNamesOf (KanbanService.createTask exState
        ⟨"t9", "c1", "T", "D", "A", "d", "low"⟩ "2024-03-01"
        ["a", "b", "a"]) "t9").Nodup ∧
      (∀ s, s ∈ tagNamesOf (KanbanService.createTask exState
        ⟨"t9", "c1", "T", "D", "A", "d", "low"⟩ "2024-03-01"
        ["a", "b", "a"]) "t9" ↔ s ∈ (["a", "b", "a"] : List String))) :=
  ⟨⟨by decide, by decide, by decide, by decide⟩,
    claim9_tag_roundtrip exState ⟨"t9", "c1", "T", "D", "A", "d", "low"⟩
      "2024-03-01" ["a", "b", "a"] (by decide) (by decide) (by decide)
      (by decide)⟩

end Kanban

namespace Kanban

/-! ### Tag-string truthiness in the composed project tree (C7) -/

theorem splitCommaChars_ne_nil : ∀ l : List Char, splitCommaChars l ≠ []
  | [] => by simp [splitCommaChars]
  | c :: cs => by
    unfold splitCommaChars
    by_cases hc : c = ','
    · rw [if_pos hc]
      simp
    · rw [if_neg hc]
      cases h : splitCommaChars cs <;> simp

theorem commaJoin_eq_empty_iff (n : String) (ns : List String) :
    commaJoin (n :: ns) = "" ↔ n = "" ∧ ns = [] := by
  unfold commaJoin
  constructor
  · intro h
    have hdata : joinCommaChars ((n :: ns).map String.data) = [] :=
      congrArg String.data h
    cases ns with
    | nil =>
      refine ⟨?_, rfl⟩
      have : n.data = [] := hdata
      exact congrArg String.mk this
    | cons q rest =>
      exfalso
      have : n.data ++ ',' :: joinCommaChars ((q :: rest).map String.data) =
          [] := hdata
      rcases List.append_eq_nil.mp this with ⟨-, h2⟩
      cases h2
  · rintro ⟨rfl, rfl⟩
    rfl

theorem jsSplitTags_eq_nil_iff (names : List String) :
    jsSplitTags (concatTags names) = [] ↔ names = [] ∨ names = [""] := by
  cases names with
  | nil => simp [concatTags, jsSplitTags]
  | cons n ns =>
    show (if commaJoin (n :: ns) = "" then []
      else jsSplitComma (commaJoin (n :: ns))) = [] ↔ _
    by_cases hj : commaJoin (n :: ns) = ""
    · rw [if_pos hj]
      rcases (commaJoin_eq_empty_iff n ns).mp hj with ⟨rfl, rfl⟩
      simp
    · rw [if_neg hj]
      constructor
      · intro h
        exfalso
        have : (splitCommaChars (commaJoin (n :: ns)).data).map String.mk =
            [] := h
        rcases List.map_eq_nil.mp this with h2
        exact splitCommaChars_ne_nil _ h2
      · rintro (h | h)
        · cases h
        · rw [h] at hj
          exact absurd rfl hj

/-- C7 counterexample: a task whose only tag row is the empty-string tag
also yields the empty tag list in the composed project tree — tag rows
exist but the concatenated string `""` is falsy in JavaScript — refuting
"only a task with no tag rows at all yields the empty list". -/
theorem claim7_counterexample :
    (KanbanService.getProjectWithColumns exStateEmptyTag "p1").map
      (fun pv => pv.columns.map fun cv => cv.tasks.map (·.tags)) =
      some [[[]]] ∧
    tagNamesOf exStateEmptyTag "t1" = [""] ∧
    exStateEmptyTag.taskTags ≠ [] := by decide

/-- C7 (amended): in the tree returned by `getProjectWithColumns`, each
task's tags are produced by splitting its stored concatenated tag string on
commas whenever that string is truthy; a task yields the empty tag list
exactly when it has no tag rows at all or a single tag row whose name is
the empty string. -/
theorem claim7_tags_amended (st : DbState) (pid : String)
    (pv : KanbanService.ProjectView)
    (hpv : KanbanService.getProjectWithColumns st pid = some pv) :
    ∀ cv ∈ pv.columns, ∀ tv ∈ cv.tasks,
      (∀ s : String, concatTags (tagNamesOf st tv.id) = some s → s ≠ "" →
        tv.tags = jsSplitComma s) ∧
      (tv.tags = [] ↔
        tagNamesOf st tv.id = [] ∨ tagNamesOf st tv.id = [""]) := by
  intro cv hcv tv htv
  unfold KanbanService.getProjectWithColumns at hpv
  cases hp : KanbanDatabase.getProject st pid with
  | none => rw [hp] at hpv; cases hpv
  | some p =>
    rw [hp] at hpv
    have hpv2 := Option.some_inj.mp hpv
    rw [← hpv2] at hcv
    rcases List.mem_map.mp hcv with ⟨c, _, rfl⟩
    rcases List.mem_map.mp htv with ⟨rd, hrd, rfl⟩
    rcases List.mem_map.mp hrd with ⟨r, _, rfl⟩
    constructor
    · intro s hs hne
      show jsSplitTags (annotateTask st r).tags = jsSplitComma s
      have hs2 : concatTags (tagNamesOf st r.id) = some s := hs
      rw [show (annotateTask st r).tags =
        concatTags (tagNamesOf st r.id) from rfl, hs2]
      show (if s = "" then [] else jsSplitComma s) = jsSplitComma s
      rw [if_neg hne]
    · show jsSplitTags (concatTags (tagNamesOf st r.id)) = [] ↔
        tagNamesOf st r.id = [] ∨ tagNamesOf st r.id = [""]
      exact jsSplitTags_eq_nil_iff (tagNamesOf st r.id)

/-- Witness for the amended C7 on a concrete state. -/
theorem claim7_witness :
    ∃ pv, KanbanService.getProjectWithColumns exState "p1" = some pv ∧
      ∀ cv ∈ pv.columns, ∀ tv ∈ cv.tasks,
        (tv.tags = [] ↔
          tagNamesOf exState tv.id = [] ∨ tagNamesOf exState tv.id = [""]) := by
  cases hpv : KanbanService.getProjectWithColumns exState "p1" with
  | none => exact absurd hpv (by decide)
  | some pv =>
    exact ⟨pv, rfl, fun cv hcv tv htv =>
      (claim7_tags_amended exState "p1" pv hpv cv hcv tv htv).2⟩

end Kanban

namespace Kanban

/-! ### SQLite LIKE versus substring matching (C6) -/

theorem likeStar_iff (f : List Char → Bool) : ∀ ts : List Char,
    (likeStar f ts = true ↔ ∃ k, f (ts.drop k) = true)
  | [] => by
    show (f [] = true ↔ _)
    constructor
    · intro h; exact ⟨0, h⟩
    · rintro ⟨k, hk⟩
      rwa [List.drop_nil] at hk
  | t :: ts => by
    show ((f (t :: ts) || likeStar f ts) = true ↔ _)
    rw [Bool.or_eq_true, likeStar_iff f ts]
    constructor
    · rintro (h | ⟨k, hk⟩)
      · exact ⟨0, h⟩
      · exact ⟨k + 1, hk⟩
    · rintro ⟨k, hk⟩
      cases k with
      | zero => exact Or.inl hk
      | succ k2 => exact Or.inr ⟨k2, hk⟩

theorem prefixMatch_iff : ∀ n h : List Char,
    (prefixMatch n h = true ↔ n <+: h)
  | [], h => by
    simp [prefixMatch, List.nil_prefix]
  | a :: as, [] => by
    show (false = true ↔ _)
    simp [List.prefix_nil]
  | a :: as, b :: bs => by
    show (((a == b) && prefixMatch as bs) = true ↔ _)
    rw [Bool.and_eq_true, beq_iff_eq, prefixMatch_iff as bs]
    exact (List.cons_prefix_cons).symm

theorem subMatch_iff (n : List Char) : ∀ h : List Char,
    (subMatch n h = true ↔ ∃ k, prefixMatch n (h.drop k) = true)
  | [] => by
    show (n.isEmpty = true ↔ _)
    constructor
    · intro he
      refine ⟨0, ?_⟩
      rw [List.isEmpty_iff.mp he]
      rfl
    · rintro ⟨k, hk⟩
      rw [List.drop_nil] at hk
      cases n with
      | nil => rfl
      | cons a as => cases hk
  | c :: cs => by
    show ((prefixMatch n (c :: cs) || subMatch n cs) = true ↔ _)
    rw [Bool.or_eq_true, subMatch_iff n cs]
    constructor
    · rintro (h | ⟨k, hk⟩)
      · exact ⟨0, h⟩
      · exact ⟨k + 1, hk⟩
    · rintro ⟨k, hk⟩
      cases k with
      | zero => exact Or.inl hk
      | succ k2 => exact Or.inr ⟨k2, hk⟩

theorem likeChars_percent_nil (ts : List Char) : likeChars ['%'] ts = true := by
  simp only [likeChars]
  rw [if_pos trivial, (likeStar_iff _ ts)]
  refine ⟨ts.length, ?_⟩
  rw [List.drop_length]
  rfl

theorem likeChars_tail : ∀ ps : List Char, '%' ∉ ps → '_' ∉ ps →
    ∀ ts, likeChars (ps ++ ['%']) ts =
      prefixMatch (ps.map asciiLowerChar) (ts.map asciiLowerChar)
  | [], _, _, ts => by
    rw [List.nil_append, likeChars_percent_nil ts]
    rfl
  | p :: ps, hw, hu, ts => by
    have hp1 : ¬ p = '%' := fun h => hw (h ▸ List.mem_cons_self _ _)
    have hp2 : ¬ p = '_' := fun h => hu (h ▸ List.mem_cons_self _ _)
    show likeChars (p :: (ps ++ ['%'])) ts = _
    simp only [likeChars]
    rw [if_neg hp1, if_neg hp2]
    cases ts with
    | nil => rfl
    | cons t ts2 =>
      show ((asciiLowerChar p == asciiLowerChar t) &&
        likeChars (ps ++ ['%']) ts2) = _
      rw [likeChars_tail ps (fun h => hw (List.mem_cons_of_mem _ h))
        (fun h => hu (List.mem_cons_of_mem _ h)) ts2]
      rfl

theorem likeContains_eq_ciContains (term : String) (hw : '%' ∉ term.data)
    (hu : '_' ∉ term.data) (s : String) :
    likeContains term s = ciContains term s := by
  have hiff : likeContains term s = true ↔ ciContains term s = true := by
    unfold likeContains ciContains
    rw [show likeChars ('%' :: (term.data ++ ['%'])) s.data =
      likeStar (likeChars (term.data ++ ['%'])) s.data from by
        simp only [likeChars]
        rw [if_pos trivial]]
    rw [likeStar_iff, subMatch_iff]
    constructor
    · rintro ⟨k, hk⟩
      rw [likeChars_tail term.data hw hu] at hk
      refine ⟨k, ?_⟩
      rwa [List.map_drop] at hk
    · rintro ⟨k, hk⟩
      refine ⟨k, ?_⟩
      rw [likeChars_tail term.data hw hu, List.map_drop]
      exact hk
  exact Bool.eq_iff_iff.mpr hiff

theorem searchTasks_map_row (st : DbState) (pid term : String) :
    (KanbanDatabase.searchTasks st pid term).map (·.row) =
      sortBy recentLE (st.tasks.filter fun r =>
        (st.columns.any fun c => c.id == r.column_id &&
          c.project_id == pid) &&
        (likeContains term r.title || likeContains term r.description ||
          likeContains term r.assignee)) := by
  unfold KanbanDatabase.searchTasks
  rw [List.map_map]
  exact List.map_id' _

/-- C6 counterexample: `searchTasks` with term `"hello"` returns a task
none of whose searchable fields contains `"hello"` as a case-sensitive
substring — SQLite's default `LIKE` is ASCII-case-insensitive, refuting the
"case-sensitive substring" reading. -/
theorem claim6_counterexample :
    ((KanbanDatabase.searchTasks exStateSearch "p1" "hello").map
      (·.row.id) = ["t1"]) ∧
    csContains "hello" "Hello" = false ∧
    csContains "hello" "xx" = false ∧
    csContains "hello" "yy" = false := by decide

/-- C6 (amended): for every wildcard-free term, `searchTasks` returns
exactly the tasks of the project's columns whose title, description or
assignee contains the term as a case-insensitive (ASCII) substring, ordered
newest-first by creation time, each annotated with its concatenated tag
string. -/
theorem claim6_search_amended (st : DbState) (pid term : String)
    (hw : '%' ∉ term.data) (hu : '_' ∉ term.data) :
    (((KanbanDatabase.searchTasks st pid term).map (·.row)).Perm
      (st.tasks.filter fun r =>
        (st.columns.any fun c => c.id == r.column_id &&
          c.project_id == pid) &&
        (ciContains term r.title || ciContains term r.description ||
          ciContains term r.assignee))) ∧
    ((KanbanDatabase.searchTasks st pid term).Pairwise
      fun a b => strLe b.row.created_at a.row.created_at = true) ∧
    (∀ v ∈ KanbanDatabase.searchTasks st pid term,
      v.tags = concatTags (tagNamesOf st v.row.id)) := by
  have hfeq : (st.tasks.filter fun r =>
      (st.columns.any fun c => c.id == r.column_id && c.project_id == pid) &&
      (likeContains term r.title || likeContains term r.description ||
        likeContains term r.assignee)) =
      st.tasks.filter fun r =>
        (st.columns.any fun c => c.id == r.column_id &&
          c.project_id == pid) &&
        (ciContains term r.title || ciContains term r.description ||
          ciContains term r.assignee) := by
    refine List.filter_congr fun r _ => ?_
    rw [likeContains_eq_ciContains term hw hu r.title,
      likeContains_eq_ciContains term hw hu r.description,
      likeContains_eq_ciContains term hw hu r.assignee]
  refine ⟨?_, ?_, ?_⟩
  · rw [searchTasks_map_row, hfeq]
    exact sortBy_perm _ _
  · show ((sortBy recentLE _).map (annotateTask st)).Pairwise _
    rw [List.pairwise_map]
    exact (sortBy_pairwise recentLE recentLE_trans recentLE_total _).imp
      fun h => h
  · intro v hv
    rcases List.mem_map.mp hv with ⟨r, _, rfl⟩
    rfl

/-- Witness for the amended C6 on a concrete state. -/
theorem claim6_witness :
    ('%' ∉ "ell".data ∧ '_' ∉ "ell".data) ∧
    ((KanbanDatabase.searchTasks exStateSearch "p1" "ell").map
      (·.row)).Perm
      (exStateSearch.tasks.filter fun r =>
        (exStateSearch.columns.any fun c => c.id == r.column_id &&
          c.project_id == "p1") &&
        (ciContains "ell" r.title || ciContains "ell" r.description ||
          ciContains "ell" r.assignee)) :=
  ⟨⟨by decide, by decide⟩,
    (claim6_search_amended exStateSearch "p1" "ell" (by decide)
      (by decide)).1⟩

end Kanban

namespace Kanban

/-! ### Referential integrity (C5) -/

theorem refIntegrity_map_tasks (st : DbState) (f : TaskRow → TaskRow)
    (hid : ∀ r, (f r).id = r.id) (hcol : ∀ r, (f r).column_id = r.column_id)
    (h : RefIntegrity st) :
    RefIntegrity { st with tasks := st.tasks.map f } := by
  obtain ⟨h1, h2, h3⟩ := h
  refine ⟨h1, ?_, ?_⟩
  · intro t ht
    rcases List.mem_map.mp ht with ⟨r, hr, rfl⟩
    rcases h2 r hr with ⟨c, hc, hcid⟩
    exact ⟨c, hc, by rw [hcol]; exact hcid⟩
  · intro g hg
    rcases h3 g hg with ⟨t, ht, htid⟩
    exact ⟨f t, List.mem_map_of_mem f ht, by rw [hid]; exact htid⟩

theorem refIntegrity_map_columns (st : DbState) (f : ColumnRow → ColumnRow)
    (hid : ∀ c, (f c).id = c.id) (hproj : ∀ c, (f c).project_id = c.project_id)
    (h : RefIntegrity st) :
    RefIntegrity { st with columns := st.columns.map f } := by
  obtain ⟨h1, h2, h3⟩ := h
  refine ⟨?_, ?_, h3⟩
  · intro c hc
    rcases List.mem_map.mp hc with ⟨d, hd, rfl⟩
    rcases h1 d hd with ⟨p, hp, hpid⟩
    exact ⟨p, hp, by rw [hproj]; exact hpid⟩
  · intro t ht
    rcases h2 t ht with ⟨c, hc, hcid⟩
    exact ⟨f c, List.mem_map_of_mem f hc, by rw [hid]; exact hcid⟩

theorem refIntegrity_map_projects (st : DbState) (f : ProjectRow → ProjectRow)
    (hid : ∀ p, (f p).id = p.id) (h : RefIntegrity st) :
    RefIntegrity { st with projects := st.projects.map f } := by
  obtain ⟨h1, h2, h3⟩ := h
  refine ⟨?_, h2, h3⟩
  intro c hc
  rcases h1 c hc with ⟨p, hp, hpid⟩
  exact ⟨f p, List.mem_map_of_mem f hp, by rw [hid]; exact hpid⟩

theorem refIntegrity_deleteTask (st : DbState) (tid : String)
    (h : RefIntegrity st) :
    RefIntegrity (KanbanDatabase.deleteTask st tid) := by
  obtain ⟨h1, h2, h3⟩ := h
  refine ⟨h1, ?_, ?_⟩
  · intro t ht
    exact h2 t (List.mem_filter.mp ht).1
  · intro g hg
    have hgf := List.mem_filter.mp hg
    rcases h3 g hgf.1 with ⟨t, ht, htid⟩
    refine ⟨t, List.mem_filter.mpr ⟨ht, ?_⟩, htid⟩
    rw [show t.id = g.task_id from htid] at *
    exact hgf.2

theorem refIntegrity_deleteColumn (st : DbState) (cid : String)
    (h : RefIntegrity st) :
    RefIntegrity (KanbanDatabase.deleteColumn st cid) := by
  obtain ⟨h1, h2, h3⟩ := h
  have hc2 : (KanbanDatabase.deleteColumn st cid).columns =
      st.columns.filter (fun c => !(c.id == cid)) := rfl
  have hc3 : (KanbanDatabase.deleteColumn st cid).tasks =
      st.tasks.filter (fun r => !(r.column_id == cid)) := rfl
  have hc4 : (KanbanDatabase.deleteColumn st cid).taskTags =
      st.taskTags.filter (fun g => !(decide (g.task_id ∈
        (st.tasks.filter fun r => r.column_id == cid).map (·.id)))) := rfl
  refine ⟨?_, ?_, ?_⟩
  · intro c hc
    rw [hc2] at hc
    exact h1 c (List.mem_filter.mp hc).1
  · intro t ht
    rw [hc3] at ht
    rw [hc2]
    have htf := List.mem_filter.mp ht
    rcases h2 t htf.1 with ⟨c, hc, hcid⟩
    refine ⟨c, List.mem_filter.mpr ⟨hc, ?_⟩, hcid⟩
    rw [show c.id = t.column_id from hcid]
    exact htf.2
  · intro g hg
    rw [hc4] at hg
    rw [hc3]
    have hgf := List.mem_filter.mp hg
    rcases h3 g hgf.1 with ⟨t, ht, htid⟩
    refine ⟨t, List.mem_filter.mpr ⟨ht, ?_⟩, htid⟩
    cases hcl : (t.column_id == cid) with
    | false => simp
    | true =>
      exfalso
      have htin : t ∈ st.tasks.filter (fun r => r.column_id == cid) :=
        List.mem_filter.mpr ⟨ht, hcl⟩
      have hmm : g.task_id ∈
          (st.tasks.filter fun r => r.column_id == cid).map (·.id) := by
        have := List.mem_map_of_mem (fun r : TaskRow => r.id) htin
        simpa only [htid] using this
      have h2' := hgf.2
      simp [hmm] at h2'

theorem refIntegrity_deleteProject (st : DbState) (pid : String)
    (h : RefIntegrity st) :
    RefIntegrity (KanbanDatabase.deleteProject st pid) := by
  obtain ⟨h1, h2, h3⟩ := h
  have hc1 : (KanbanDatabase.deleteProject st pid).projects =
      st.projects.filter (fun p => !(p.id == pid)) := rfl
  have hc2 : (KanbanDatabase.deleteProject st pid).columns =
      st.columns.filter (fun c => !(c.project_id == pid)) := rfl
  have hc3 : (KanbanDatabase.deleteProject st pid).tasks =
      st.tasks.filter (fun r => !(decide (r.column_id ∈
        (st.columns.filter fun c => c.project_id == pid).map (·.id)))) := rfl
  have hc4 : (KanbanDatabase.deleteProject st pid).taskTags =
      st.taskTags.filter (fun g => !(decide (g.task_id ∈
        (st.tasks.filter fun r => decide (r.column_id ∈
          (st.columns.filter fun c => c.project_id == pid).map
            (·.id))).map (·.id)))) := rfl
  refine ⟨?_, ?_, ?_⟩
  · intro c hc
    rw [hc2] at hc
    rw [hc1]
    have hcf := List.mem_filter.mp hc
    rcases h1 c hcf.1 with ⟨p, hp, hpid⟩
    refine ⟨p, List.mem_filter.mpr ⟨hp, ?_⟩, hpid⟩
    rw [show p.id = c.project_id from hpid]
    exact hcf.2
  · intro t ht
    rw [hc3] at ht
    rw [hc2]
    have htf := List.mem_filter.mp ht
    rcases h2 t htf.1 with ⟨c, hc, hcid⟩
    refine ⟨c, List.mem_filter.mpr ⟨hc, ?_⟩, hcid⟩
    cases hcl : (c.project_id == pid) with
    | false => simp
    | true =>
      exfalso
      have hcin : c ∈ st.columns.filter (fun d => d.project_id == pid) :=
        List.mem_filter.mpr ⟨hc, hcl⟩
      have hmm : t.column_id ∈
          (st.columns.filter fun d => d.project_id == pid).map (·.id) := by
        have := List.mem_map_of_mem (fun d : ColumnRow => d.id) hcin
        simpa only [hcid] using this
      have h2' := htf.2
      simp [hmm] at h2'
  · intro g hg
    rw [hc4] at hg
    rw [hc3]
    have hgf := List.mem_filter.mp hg
    rcases h3 g hgf.1 with ⟨t, ht, htid⟩
    refine ⟨t, List.mem_filter.mpr ⟨ht, ?_⟩, htid⟩
    cases hcl : (decide (t.column_id ∈
        (st.columns.filter fun c => c.project_id == pid).map (·.id))) with
    | false => simp [hcl]
    | true =>
      exfalso
      have htin : t ∈ st.tasks.filter (fun r => decide (r.column_id ∈
          (st.columns.filter fun c => c.project_id == pid).map (·.id))) :=
        List.mem_filter.mpr ⟨ht, hcl⟩
      have hmm : g.task_id ∈
          (st.tasks.filter fun r => decide (r.column_id ∈
            (st.columns.filter fun c => c.project_id == pid).map
              (·.id))).map (·.id) := by
        have := List.mem_map_of_mem (fun r : TaskRow => r.id) htin
        simpa only [htid] using this
      have h2' := hgf.2
      simp [hmm] at h2'

theorem refIntegrity_updateTasksOrder :
    ∀ (orders : List (String × Int)) (st : DbState), RefIntegrity st →
      RefIntegrity (KanbanDatabase.updateTasksOrder st orders)
  | [], _, h => h
  | p :: ps, st, h => by
    rw [show KanbanDatabase.updateTasksOrder st (p :: ps) =
      KanbanDatabase.updateTasksOrder
        (KanbanDatabase.updateTaskOrder st p.1 p.2) ps from rfl]
    exact refIntegrity_updateTasksOrder ps _
      (refIntegrity_map_tasks st _ (fun r => by split <;> rfl)
        (fun r => by split <;> rfl) h)

theorem refIntegrity_updateColumnsOrder :
    ∀ (orders : List (String × Int)) (st : DbState), RefIntegrity st →
      RefIntegrity (KanbanDatabase.updateColumnsOrder st orders)
  | [], _, h => h
  | p :: ps, st, h => by
    rw [show KanbanDatabase.updateColumnsOrder st (p :: ps) =
      KanbanDatabase.updateColumnsOrder
        (KanbanDatabase.updateColumnOrder st p.1 p.2) ps from rfl]
    exact refIntegrity_updateColumnsOrder ps _
      (refIntegrity_map_columns st _ (fun c => by split <;> rfl)
        (fun c => by split <;> rfl) h)

end Kanban

namespace Kanban

/-- C5: `deleteProject` removes the project row, every column of the
project, every task of those columns, and every tag row of those tasks
(the schema's `ON DELETE CASCADE` chain); and consequently referential
integrity — every column references a live project, every task a live
column, every tag row a live task — is preserved by every repository
write. -/
theorem claim5_cascade_integrity (st : DbState) (pid : String) (op : DbOp) :
    (∀ p ∈ (KanbanDatabase.deleteProject st pid).projects, p.id ≠ pid) ∧
    (∀ c ∈ st.columns, c.project_id = pid →
      c ∉ (KanbanDatabase.deleteProject st pid).columns) ∧
    (∀ c ∈ st.columns, c.project_id = pid → ∀ t ∈ st.tasks,
      t.column_id = c.id → t ∉ (KanbanDatabase.deleteProject st pid).tasks) ∧
    (∀ c ∈ st.columns, c.project_id = pid → ∀ t ∈ st.tasks,
      t.column_id = c.id → ∀ g ∈ st.taskTags, g.task_id = t.id →
        g ∉ (KanbanDatabase.deleteProject st pid).taskTags) ∧
    (RefIntegrity st → RefIntegrity (applyOp st op)) := by
  have hc1 : (KanbanDatabase.deleteProject st pid).projects =
      st.projects.filter (fun p => !(p.id == pid)) := rfl
  have hc2 : (KanbanDatabase.deleteProject st pid).columns =
      st.columns.filter (fun c => !(c.project_id == pid)) := rfl
  have hc3 : (KanbanDatabase.deleteProject st pid).tasks =
      st.tasks.filter (fun r => !(decide (r.column_id ∈
        (st.columns.filter fun c => c.project_id == pid).map (·.id)))) := rfl
  have hc4 : (KanbanDatabase.deleteProject st pid).taskTags =
      st.taskTags.filter (fun g => !(decide (g.task_id ∈
        (st.tasks.filter fun r => decide (r.column_id ∈
          (st.columns.filter fun c => c.project_id == pid).map
            (·.id))).map (·.id)))) := rfl
  refine ⟨?_, ?_, ?_, ?_, ?_⟩
  · intro p hp
    rw [hc1] at hp
    have h2 := (List.mem_filter.mp hp).2
    simp only [Bool.not_eq_true', beq_eq_false_iff_ne, ne_eq] at h2
    exact h2
  · intro c hc hproj hmem
    rw [hc2] at hmem
    have h2 := (List.mem_filter.mp hmem).2
    simp [hproj] at h2
  · intro c hc hproj t ht hcol hmem
    rw [hc3] at hmem
    have h2 := (List.mem_filter.mp hmem).2
    have hcin : c ∈ st.columns.filter (fun d => d.project_id == pid) :=
      List.mem_filter.mpr ⟨hc, by simp [hproj]⟩
    have hin : t.column_id ∈
        (st.columns.filter fun d => d.project_id == pid).map (·.id) := by
      have := List.mem_map_of_mem (fun d : ColumnRow => d.id) hcin
      simpa only [hcol] using this
    simp [hin] at h2
  · intro c hc hproj t ht hcol g hg htid hmem
    rw [hc4] at hmem
    have h2 := (List.mem_filter.mp hmem).2
    have hcin : c ∈ st.columns.filter (fun d => d.project_id == pid) :=
      List.mem_filter.mpr ⟨hc, by simp [hproj]⟩
    have hin : t.column_id ∈
        (st.columns.filter fun d => d.project_id == pid).map (·.id) := by
      have := List.mem_map_of_mem (fun d : ColumnRow => d.id) hcin
      simpa only [hcol] using this
    have htin : t ∈ st.tasks.filter (fun r => decide (r.column_id ∈
        (st.columns.filter fun d => d.project_id == pid).map (·.id))) :=
      List.mem_filter.mpr ⟨ht, by simp [hin]⟩
    have hin2 : g.task_id ∈ (st.tasks.filter fun r => decide (r.column_id ∈
        (st.columns.filter fun d => d.project_id == pid).map
          (·.id))).map (·.id) := by
      have := List.mem_map_of_mem (fun r : TaskRow => r.id) htin
      simpa only [htid] using this
    simp [hin2] at h2
  · intro h
    cases op with
    | createProject p =>
      show RefIntegrity (if st.projects.any fun q => q.id == p.id then st
        else KanbanDatabase.createProject st p)
      split_ifs with hdup
      · exact h
      · obtain ⟨h1, h2, h3⟩ := h
        refine ⟨?_, h2, h3⟩
        intro c hc
        rcases h1 c hc with ⟨q, hq, hqid⟩
        exact ⟨q, List.mem_append_left _ hq, hqid⟩
    | createColumn c =>
      show RefIntegrity (if (st.columns.any fun d => d.id == c.id) ||
          !(st.projects.any fun q => q.id == c.project_id) then st
        else KanbanDatabase.createColumn st c)
      split_ifs with hguard
      · exact h
      · have hlive : (st.projects.any fun q => q.id == c.project_id) = true := by
          cases hl : (st.projects.any fun q => q.id == c.project_id) with
          | true => rfl
          | false => exact absurd (by rw [hl]; simp) hguard
        obtain ⟨h1, h2, h3⟩ := h
        refine ⟨?_, ?_, h3⟩
        · intro d hd
          rcases List.mem_append.mp hd with hd2 | hd2
          · exact h1 d hd2
          · rcases List.mem_singleton.mp hd2 with rfl
            rcases List.any_eq_true.mp hlive with ⟨q, hq, hqe⟩
            exact ⟨q, hq, beq_iff_eq.mp hqe⟩
        · intro t ht
          rcases h2 t ht with ⟨d, hd, hdid⟩
          exact ⟨d, List.mem_append_left _ hd, hdid⟩
    | createTask t now =>
      show RefIntegrity (if (st.tasks.any fun r => r.id == t.id) ||
          !(st.columns.any fun c => c.id == t.column_id) then st
        else KanbanDatabase.createTask st t now)
      split_ifs with hguard
      · exact h
      · have hlive : (st.columns.any fun c => c.id == t.column_id) = true := by
          cases hl : (st.columns.any fun c => c.id == t.column_id) with
          | true => rfl
          | false => exact absurd (by rw [hl]; simp) hguard
        obtain ⟨h1, h2, h3⟩ := h
        refine ⟨h1, ?_, ?_⟩
        · intro r hr
          rcases List.mem_append.mp hr with hr2 | hr2
          · exact h2 r hr2
          · rcases List.mem_singleton.mp hr2 with rfl
            rcases List.any_eq_true.mp hlive with ⟨c, hcm, hce⟩
            exact ⟨c, hcm, beq_iff_eq.mp hce⟩
        · intro g hg
          rcases h3 g hg with ⟨r, hr, hrid⟩
          exact ⟨r, List.mem_append_left _ hr, hrid⟩
    | addTaskTags taskId tags =>
      show RefIntegrity (if !(st.tasks.any fun r => r.id == taskId) then st
        else KanbanDatabase.addTaskTags st taskId tags)
      split_ifs with hguard
      · exact h
      · have hlive : (st.tasks.any fun r => r.id == taskId) = true := by
          cases hl : (st.tasks.any fun r => r.id == taskId) with
          | true => rfl
          | false => exact absurd (by rw [hl]; rfl) hguard
        obtain ⟨h1, h2, h3⟩ := h
        refine ⟨h1, h2, ?_⟩
        intro g hg
        rcases (mem_insertTagRows taskId tags st.taskTags g).mp hg with
          hg2 | ⟨hgid, -⟩
        · exact h3 g hg2
        · rcases List.any_eq_true.mp hlive with ⟨r, hr, hre⟩
          exact ⟨r, hr, by rw [beq_iff_eq.mp hre, hgid]⟩
    | deleteTaskTags taskId =>
      obtain ⟨h1, h2, h3⟩ := h
      refine ⟨h1, h2, ?_⟩
      intro g hg
      exact h3 g (List.mem_filter.mp hg).1
    | updateProject projectId u =>
      show RefIntegrity (KanbanDatabase.updateProject st projectId u).1
      unfold KanbanDatabase.updateProject
      split_ifs with hc
      · exact h
      · exact refIntegrity_map_projects st _ (fun p => by split <;> rfl) h
    | updateColumn columnId u =>
      show RefIntegrity (KanbanDatabase.updateColumn st columnId u).1
      unfold KanbanDatabase.updateColumn
      split_ifs with hc
      · exact h
      · exact refIntegrity_map_columns st _ (fun c => by split <;> rfl)
          (fun c => by split <;> rfl) h
    | updateTask taskId u =>
      show RefIntegrity (KanbanDatabase.updateTask st taskId u).1
      unfold KanbanDatabase.updateTask
      split_ifs with hc
      · exact h
      · exact refIntegrity_map_tasks st _ (fun r => by split <;> rfl)
          (fun r => by split <;> rfl) h
    | deleteProject projectId => exact refIntegrity_deleteProject st _ h
    | deleteColumn columnId => exact refIntegrity_deleteColumn st _ h
    | deleteTask taskId => exact refIntegrity_deleteTask st _ h
    | moveTask taskId newColumnId =>
      show RefIntegrity (if (st.tasks.any fun r => r.id == taskId) &&
          !(st.columns.any fun c => c.id == newColumnId) then st
        else KanbanDatabase.moveTask st taskId newColumnId)
      split_ifs with hguard
      · exact h
      · obtain ⟨h1, h2, h3⟩ := h
        refine ⟨h1, ?_, ?_⟩
        · intro t ht
          rcases List.mem_map.mp ht with ⟨r, hr, rfl⟩
          by_cases hid : (r.id == taskId) = true
          · have hlive : (st.columns.any fun c => c.id == newColumnId) =
                true := by
              cases hcl : (st.columns.any fun c => c.id == newColumnId) with
              | true => rfl
              | false =>
                exact absurd (by
                  rw [hcl]
                  simp only [Bool.not_false, Bool.and_true]
                  exact List.any_eq_true.mpr ⟨r, hr, hid⟩) hguard
            rcases List.any_eq_true.mp hlive with ⟨c, hcm, hce⟩
            refine ⟨c, hcm, ?_⟩
            rw [if_pos hid]
            exact beq_iff_eq.mp hce
          · rw [if_neg hid]
            exact h2 r hr
        · intro g hg
          rcases h3 g hg with ⟨t, ht, htid⟩
          refine ⟨(fun r : TaskRow => if r.id == taskId then
            { r with column_id := newColumnId } else r) t,
            List.mem_map_of_mem _ ht, ?_⟩
          show (if (t.id == taskId) = true then
            { t with column_id := newColumnId } else t).id = g.task_id
          split <;> exact htid
    | updateColumnOrder columnId ord =>
      exact refIntegrity_map_columns st _ (fun c => by split <;> rfl)
        (fun c => by split <;> rfl) h
    | updateTaskOrder taskId ord =>
      exact refIntegrity_map_tasks st _ (fun r => by split <;> rfl)
        (fun r => by split <;> rfl) h
    | updateColumnsOrder orders => exact refIntegrity_updateColumnsOrder orders st h
    | updateTasksOrder orders => exact refIntegrity_updateTasksOrder orders st h

/-- Witness for C5 on a concrete project with columns, tasks and tags. -/
theorem claim5_witness :
    RefIntegrity exState ∧
    RefIntegrity (applyOp exState (DbOp.deleteColumn "c2")) ∧
    (∀ p ∈ (KanbanDatabase.deleteProject exState "p1").projects,
      p.id ≠ "p1") :=
  ⟨by decide,
    (claim5_cascade_integrity exState "p1" (DbOp.deleteColumn "c2")).2.2.2.2
      (by decide),
    (claim5_cascade_integrity exState "p1" (DbOp.deleteColumn "c2")).1⟩

end Kanban

namespace Kanban

/-- Witness for C10: reordering with an id from another column still
updates that row, and only its `order_index`. -/
theorem claim10_witness :
    2 < exState.tasks.length ∧
    (∃ r r', exState.tasks[2]? = some r ∧
      (KanbanService.reorderTasks exState "c1" ["t3"]).tasks[2]? = some r' ∧
      (r.id ∉ (["t3"] : List String) → r' = r) ∧
      ({ r' with order_index := r.order_index } = r) ∧
      ((["t3"] : List String).Nodup → r.id ∈ (["t3"] : List String) →
        r'.order_index = Int.ofNat (List.indexOf r.id ["t3"]))) :=
  ⟨by decide, (claim10_reorder_frame exState "c1" ["t3"]).2.1 2 (by decide)⟩

end Kanban
